import Mathlib

/-!
fortigate_exporter, package `probe`: active users per subnet.

A shallow embedding of `pkg/probe/firewall_address.go` and
`pkg/probe/user_firewall.go`, together with the pieces of the Go standard
library (`strings.Split`, `net.ParseIP`, `net.ParseCIDR`, `net.IPMask.Size`,
`net.IPNet.Contains`, `fmt.Sprintf`) that the probe calls.

Conventions of the embedding:

* the standard library is embedded as in current Go releases, where
  `net.ParseIP` and `net.ParseCIDR` read the address through `netip.ParseAddr`
  (an IPv4 field with a leading zero is rejected);
* a Go `string` is a Lean `String`; the parsers only ever compare bytes with
  ASCII characters, so scanning characters instead of UTF-8 bytes gives the same
  verdicts and the same pieces;
* a Go byte slice (`net.IP`, `net.IPMask`) is a `List Nat` of bytes, the nil
  slice being `[]`;
* a Go `int` that counts or measures is a `Nat`; the counters of the probe are
  bounded by the number of loop iterations performed, which cannot reach `2^63`;
* a Go `float64` obtained from an integer is the integer that is its exact
  value (`float64` below); the integer fields of a decoded session are 64-bit;
* `log.Printf` calls have no effect on any result and are left out.
-/

namespace Probe

/-! ## Go standard library: `strings` -/

/-- The pieces of a character sequence between the occurrences of `sep`. -/
def splitChars (sep : Char) : List Char → List (List Char)
  | [] => [[]]
  | c :: rest =>
    if c = sep then [] :: splitChars sep rest
    else
      match splitChars sep rest with
      | [] => [[c]]
      | piece :: more => (c :: piece) :: more

/-- Go `strings.Split(s, sep)` for a separator of one ASCII character: the
substrings of `s` between the occurrences of the separator (one more than the
number of occurrences). -/
def stringsSplit (s : String) (sep : Char) : List String :=
  (splitChars sep s.data).map String.mk

/-! ## Go standard library: `net/netip` address parsing -/

/-- Value of `netip.Addr` as far as the probe observes it: the 16-byte form
(`As16`), whether the address is an IPv4 address (`Is4`), and the IPv6 zone. -/
structure Addr where
  bytes : List Nat
  is4 : Bool
  zone : String
deriving DecidableEq, Repr

/-- The 12 bytes that precede an IPv4 address in its 16-byte form. -/
def v4InV6Prefix : List Nat := [0, 0, 0, 0, 0, 0, 0, 0, 0, 0, 0xff, 0xff]

/-- Loop of `netip.parseIPv4Fields` over the remaining characters. `atStart` is
`i == 0`, `afterDot` is `s[i-1] == '.'`, and `rest = []` is `i == len(s)-1`. -/
def parseIPv4Loop : List Char → Bool → Bool → Nat → Nat → Nat → List Nat → Option (List Nat)
  | [], _, _, val, pos, _, fields => if pos < 3 then none else some (fields.set 3 val)
  | c :: rest, atStart, afterDot, val, pos, digLen, fields =>
    if '0' ≤ c ∧ c ≤ '9' then
      if digLen = 1 ∧ val = 0 then none
      else
        let val := val * 10 + (c.toNat - '0'.toNat)
        if val > 255 then none
        else parseIPv4Loop rest false false val pos (digLen + 1) fields
    else if c = '.' then
      if atStart ∨ rest = [] ∨ afterDot then none
      else if pos = 3 then none
      else parseIPv4Loop rest false true 0 (pos + 1) 0 (fields.set pos val)
    else none

/-- Go `netip.parseIPv4Fields(in, off, end, fields)` on the characters
`s = in[off:end]`: the four decimal fields of a dotted quad written into
`fields`; `none` stands for the error result. -/
def parseIPv4Fields (s : List Char) (fields : List Nat) : Option (List Nat) :=
  parseIPv4Loop s true false 0 0 0 fields

/-- Go `netip.parseIPv4`. -/
def parseIPv4 (s : List Char) : Option Addr :=
  match parseIPv4Fields s [0, 0, 0, 0] with
  | none => none
  | some fields => some { bytes := v4InV6Prefix ++ fields, is4 := true, zone := "" }

/-- Value of a hexadecimal digit, `none` for any other character. -/
def hexVal (c : Char) : Option Nat :=
  if '0' ≤ c ∧ c ≤ '9' then some (c.toNat - '0'.toNat)
  else if 'a' ≤ c ∧ c ≤ 'f' then some (c.toNat - 'a'.toNat + 10)
  else if 'A' ≤ c ∧ c ≤ 'F' then some (c.toNat - 'A'.toNat + 10)
  else none

/-- Inner loop of `netip.parseIPv6` reading one group of hexadecimal digits:
returns the number `off` of digits read, their value `acc` and the characters
from `s[off]` on; `none` when the group has more than 4 digits or a value
above `0xffff`. -/
def parseHexGroup : List Char → Nat → Nat → Option (Nat × Nat × List Char)
  | [], off, acc => some (off, acc, [])
  | c :: rest, off, acc =>
    match hexVal c with
    | none => some (off, acc, c :: rest)
    | some d =>
      let acc := acc * 16 + d
      if off > 3 then none
      else if acc > 65535 then none
      else parseHexGroup rest (off + 1) acc

/-- State of the group loop of `netip.parseIPv6` when it is left: the
characters not yet read, the write position `i`, the position of the ellipsis
(`none` for `-1`) and the 16-byte array. -/
structure V6State where
  s : List Char
  i : Nat
  ellipsis : Option Nat
  ip : List Nat
deriving DecidableEq, Repr

/-- Group loop `for i < 16 { ... }` of `netip.parseIPv6`. The first argument
counts the iterations still available: every iteration that continues adds 2
to `i`, so 8 of them reach `i = 16`. `none` stands for an error return. -/
def parseIPv6Loop : Nat → List Char → Nat → Option Nat → List Nat → Option V6State
  | 0, s, i, ellipsis, ip => some ⟨s, i, ellipsis, ip⟩
  | k + 1, s, i, ellipsis, ip =>
    if ¬ i < 16 then some ⟨s, i, ellipsis, ip⟩
    else
      match parseHexGroup s 0 0 with
      | none => none
      | some (off, acc, rest) =>
        if off = 0 then none
        else if rest.head? = some '.' then
          if ellipsis = none ∧ i ≠ 12 then none
          else if i + 4 > 16 then none
          else
            match parseIPv4Fields s ((ip.drop i).take 4) with
            | none => none
            | some fields => some ⟨[], i + 4, ellipsis, ip.take i ++ fields ++ ip.drop (i + 4)⟩
        else
          let ip := (ip.set i (acc / 256)).set (i + 1) (acc % 256)
          let i := i + 2
          match rest with
          | [] => some ⟨[], i, ellipsis, ip⟩
          | c :: rest1 =>
            if c ≠ ':' then none
            else
              match rest1 with
              | [] => none
              | c1 :: rest2 =>
                if c1 = ':' then
                  if ellipsis.isSome then none
                  else
                    match rest2 with
                    | [] => some ⟨[], i, some i, ip⟩
                    | _ :: _ => parseIPv6Loop k rest2 i (some i) ip
                else parseIPv6Loop k rest1 i ellipsis ip

/-- End of `netip.parseIPv6`: the whole string must have been used, and a
short address is completed by moving the bytes written after the ellipsis to
the end of the array and clearing the gap. -/
def expandEllipsis (st : V6State) : Option (List Nat) :=
  if st.s ≠ [] then none
  else if st.i < 16 then
    match st.ellipsis with
    | none => none
    | some e =>
      let n := 16 - st.i
      some ((List.range 16).map (fun j =>
        if j < e then st.ip.getD j 0 else if j < e + n then 0 else st.ip.getD (j - n) 0))
  else if st.ellipsis.isSome then none
  else some st.ip

/-- Go `netip.parseIPv6`. -/
def parseIPv6 (s : List Char) : Option Addr :=
  let addr := s.takeWhile (fun c => c ≠ '%')
  let hasZone := decide (addr.length < s.length)
  let zone := s.drop (addr.length + 1)
  if hasZone ∧ zone = [] then none
  else
    let zero := List.replicate 16 0
    let lead := decide (addr.take 2 = [':', ':'])
    if lead ∧ addr.drop 2 = [] then some { bytes := zero, is4 := false, zone := String.mk zone }
    else
      match parseIPv6Loop 8 (if lead then addr.drop 2 else addr) 0
          (if lead then some 0 else none) zero with
      | none => none
      | some st =>
        match expandEllipsis st with
        | none => none
        | some ip => some { bytes := ip, is4 := false, zone := String.mk zone }

/-- First of the characters `.`, `:` and `%` met in a string, if any. -/
def firstSeparator : List Char → Option Char
  | [] => none
  | c :: rest => if c = '.' ∨ c = ':' ∨ c = '%' then some c else firstSeparator rest

/-- Go `netip.ParseAddr`: the first `.` or `:` of the string decides whether it
is read as an IPv4 or as an IPv6 address. -/
def ParseAddr (s : String) : Option Addr :=
  match firstSeparator s.data with
  | none => none
  | some c =>
    if c = '.' then parseIPv4 s.data
    else if c = ':' then parseIPv6 s.data
    else none

/-! ## Go standard library: `net` -/

/-- Go `net.ParseIP`: the 16-byte form of the address, or nil when the string
is not the text of an IPv4 or IPv6 address without zone. -/
def ParseIP (s : String) : List Nat :=
  match ParseAddr s with
  | none => []
  | some a => if a.zone ≠ "" then [] else a.bytes

/-- Go `net.IP.To4`: the 4-byte form of an IPv4 address, nil otherwise. -/
def To4 (ip : List Nat) : List Nat :=
  if ip.length = 4 then ip
  else if ip.length = 16 ∧ ip.take 10 = List.replicate 10 0 ∧ ip.getD 10 0 = 0xff
      ∧ ip.getD 11 0 = 0xff then ip.drop 12
  else []

/-- Loop `for v&0x80 != 0 { n++; v <<= 1 }` on a byte, with the number of
iterations still available (8 shifts clear a byte). -/
def countLeadingOnes : Nat → Nat → Nat → Nat × Nat
  | 0, v, n => (v, n)
  | k + 1, v, n => if v &&& 0x80 ≠ 0 then countLeadingOnes k ((v <<< 1) % 256) (n + 1) else (v, n)

/-- Go `net.simpleMaskLength`: the number of leading one-bits of a mask made of
ones followed by zeros; `none` stands for the result `-1` given to every other
mask. -/
def simpleMaskLength : List Nat → Nat → Option Nat
  | [], n => some n
  | v :: rest, n =>
    if v = 0xff then simpleMaskLength rest (n + 8)
    else
      let (v, n) := countLeadingOnes 8 v n
      if v ≠ 0 then none
      else if rest.all (fun b => b = 0) then some n
      else none

/-- Go `net.IPMask.Size`: `(ones, bits)`, and `(0, 0)` for a mask that is not
ones followed by zeros. -/
def IPMask_Size (m : List Nat) : Nat × Nat :=
  match simpleMaskLength m 0 with
  | none => (0, 0)
  | some ones => (ones, m.length * 8)

/-- Loop of `net.CIDRMask` over the bytes still to write. -/
def cidrMaskLoop : Nat → Nat → List Nat
  | 0, _ => []
  | k + 1, n =>
    if n ≥ 8 then 0xff :: cidrMaskLoop k (n - 8)
    else (0xff ^^^ (0xff >>> n)) :: cidrMaskLoop k 0

/-- Go `net.CIDRMask(ones, bits)`. -/
def CIDRMask (ones bits : Nat) : List Nat :=
  if bits ≠ 32 ∧ bits ≠ 128 then []
  else if ones > bits then []
  else cidrMaskLoop (bits / 8) ones

/-- Go `net.IP.Mask`. -/
def IP_Mask (ip mask : List Nat) : List Nat :=
  let mask := if mask.length = 16 ∧ ip.length = 4 ∧ mask.take 12 = List.replicate 12 0xff
    then mask.drop 12 else mask
  let ip := if mask.length = 4 ∧ ip.length = 16 ∧ ip.take 12 = v4InV6Prefix
    then ip.drop 12 else ip
  if ip.length ≠ mask.length then []
  else List.zipWith (fun a b => a &&& b) ip mask

/-- Go `net.IPNet`. -/
structure IPNet where
  IP : List Nat
  Mask : List Nat
deriving DecidableEq, Repr

/-- Go `net.networkNumberAndMask`; `none` stands for the result `(nil, nil)`. -/
def networkNumberAndMask (n : IPNet) : Option (List Nat × List Nat) :=
  let ip4 := To4 n.IP
  if ip4 = [] ∧ n.IP.length ≠ 16 then none
  else
    let ip := if ip4 = [] then n.IP else ip4
    if n.Mask.length = 4 then
      if ip.length ≠ 4 then none else some (ip, n.Mask)
    else if n.Mask.length = 16 then
      some (ip, if ip.length = 4 then n.Mask.drop 12 else n.Mask)
    else none

/-- Go `net.IPNet.Contains`. -/
def IPNet.Contains (n : IPNet) (ip : List Nat) : Bool :=
  let (nn, m) := (networkNumberAndMask n).getD ([], [])
  let ip := if To4 ip ≠ [] then To4 ip else ip
  if ip.length ≠ nn.length then false
  else (List.range ip.length).all (fun i =>
    decide (nn.getD i 0 &&& m.getD i 0 = ip.getD i 0 &&& m.getD i 0))

/-- Loop of Go `net.dtoi`: `(n, i, ok)`. -/
def dtoiLoop : List Char → Nat → Nat → Nat × Nat × Bool
  | [], n, i => (n, i, true)
  | c :: rest, n, i =>
    if '0' ≤ c ∧ c ≤ '9' then
      let n := n * 10 + (c.toNat - '0'.toNat)
      if n ≥ 0xFFFFFF then (0xFFFFFF, i, false)
      else dtoiLoop rest n (i + 1)
    else (n, i, true)

/-- Go `net.dtoi`: decimal to integer, `(n, i, ok)` where `i` is the number
of characters read. -/
def dtoi (s : List Char) : Nat × Nat × Bool :=
  match dtoiLoop s 0 0 with
  | (n, i, ok) => if ¬ ok then (n, i, false) else if i = 0 then (0, 0, false) else (n, i, true)

/-- Go `net.ParseCIDR`: the address and the network of `"addr/len"`; `none`
stands for the `ParseError` result. -/
def ParseCIDR (s : String) : Option (List Nat × IPNet) :=
  let addr := s.data.takeWhile (fun c => c ≠ '/')
  if ¬ addr.length < s.data.length then none
  else
    let mask := s.data.drop (addr.length + 1)
    match ParseAddr (String.mk addr) with
    | none => none
    | some ipAddr =>
      if ipAddr.zone ≠ "" then none
      else
        let bitLen := if ipAddr.is4 then 32 else 128
        match dtoi mask with
        | (n, i, ok) =>
          if ¬ ok ∨ i ≠ mask.length ∨ n > bitLen then none
          else
            let m := CIDRMask n bitLen
            some (ipAddr.bytes, { IP := IP_Mask ipAddr.bytes m, Mask := m })

/-! ## Go standard library: `fmt` -/

/-- Go `fmt.Sprintf("%s/%d", ip, ones)`. -/
def sprintfCIDR (ip : String) (ones : Nat) : String :=
  ip ++ "/" ++ toString ones

/-! ## Go conversion of an integer to `float64` -/

/-- Number of halvings that bring `a` below `2^53`, that is the number of bits
of `a` in excess of the 53 significant bits of a double. The first argument
bounds the number of halvings; `a` itself is always enough. -/
def excessBits : Nat → Nat → Nat
  | 0, _ => 0
  | k + 1, a => if a < 2 ^ 53 then 0 else excessBits k (a / 2) + 1

/-- The natural number nearest to `a` among those a double represents: `a`
itself below `2^53`, and otherwise `a` rounded to 53 significant bits, the `e`
low bits being dropped and a tie going to the even mantissa (IEEE 754
round-to-nearest-even). -/
def roundToDouble (a : Nat) : Nat :=
  if a < 2 ^ 53 then a
  else
    let e := excessBits a a
    let q := a / 2 ^ e
    let rem := a % 2 ^ e
    let half := 2 ^ (e - 1)
    (if rem > half ∨ (rem = half ∧ q % 2 = 1) then q + 1 else q) * 2 ^ e

/-- Go `float64(v)` for an integer `v` of type `int` or `int64`: the exact
value of the resulting double, which is an integer. No 64-bit integer is
large enough for the conversion to overflow. -/
def float64 (v : Int) : Int :=
  if v < 0 then -((roundToDouble v.natAbs : Nat) : Int) else ((roundToDouble v.natAbs : Nat) : Int)

/-! ## `pkg/probe/firewall_address.go` and `pkg/probe/user_firewall.go`: data -/

/-- Go `FirewallAddressResult`. -/
structure FirewallAddressResult where
  Name : String
  Subnet : String
  Type_ : String
deriving DecidableEq, Repr

/-- Go `FirewallAddressData`. -/
structure FirewallAddressData where
  Results : List FirewallAddressResult
  VDOM : String
deriving DecidableEq, Repr

/-- Go `SubnetMatch`. -/
structure SubnetMatch where
  Address : FirewallAddressResult
  VDOM : String
deriving DecidableEq, Repr

/-- Go `FirewallAddresses`. -/
abbrev FirewallAddresses := List FirewallAddressData

/-- Go `UserFirewallResult`. The fields of type `int` and `int64` hold the
integers of the 64-bit range that the JSON decoder accepts. -/
structure UserFirewallResult where
  Type_ : String
  ID : Int
  DurationSecs : Int
  AuthType : Int
  IPAddr : String
  SrcType : String
  ExpirySecs : Int
  TrafficVolBytes : Int
  Method : String
deriving DecidableEq, Repr

/-- Go `UserFirewall`. -/
structure UserFirewall where
  HttpMethod : String
  Results : List UserFirewallResult
  VDOM : String
  Path : String
  Name : String
  Action : String
  Status : String
  Serial : String
  Version : String
  Build : Int
deriving DecidableEq, Repr

/-! ## `ipNetToCIDR` and `findLongestPrefixMatch` -/

/-- Go `ipNetToCIDR(ip, mask)`. -/
def ipNetToCIDR (ip : String) (mask : String) : Except String String :=
  let ipAddr := ParseIP ip
  if ipAddr = [] then .error "invalid IP address"
  else
    let maskIP := ParseIP mask
    if maskIP = [] then .error "invalid mask"
    else
      let ones := (IPMask_Size (To4 maskIP)).1
      .ok (sprintfCIDR ip ones)

/-- Body of the inner loop of `findLongestPrefixMatch` for one address object
of a record with the given VDOM, on the pair `(longestMatches, longestPrefix)`.
Leaving the state untouched is the `continue` of the source. -/
def matchAddress (userIP : List Nat) (vdom : String) (st : List SubnetMatch × Nat)
    (address : FirewallAddressResult) : List SubnetMatch × Nat :=
  let ipMask := stringsSplit address.Subnet ' '
  if ipMask.length ≠ 2 then st
  else
    match ipNetToCIDR (ipMask.getD 0 "") (ipMask.getD 1 "") with
    | .error _ => st
    | .ok cidr =>
      match ParseCIDR cidr with
      | none => st
      | some (_, subnet) =>
        if subnet.Contains userIP then
          let maskSize := (IPMask_Size subnet.Mask).1
          if maskSize > st.2 then ([{ Address := address, VDOM := vdom }], maskSize)
          else if maskSize = st.2 then (st.1 ++ [{ Address := address, VDOM := vdom }], st.2)
          else st
        else st

/-- Go `findLongestPrefixMatch(userIP, addresses)`. -/
def findLongestPrefixMatch (userIP : List Nat) (addresses : FirewallAddresses) :
    List SubnetMatch :=
  (addresses.foldl
    (fun st data => data.Results.foldl (matchAddress userIP data.VDOM) st) ([], 0)).1

/-! ## The counter map of `probeFirewallAddress` -/

/-- Read of a Go `map[string]V`, the map being the list of its entries. -/
def mapGet {β : Type} : List (String × β) → String → Option β
  | [], _ => none
  | (k, v) :: rest, key => if k = key then some v else mapGet rest key

/-- Write `m[key] = v` of a Go `map[string]V`: the entry of the key is replaced,
or a new entry is added. -/
def mapSet {β : Type} : List (String × β) → String → β → List (String × β)
  | [], key, v => [(key, v)]
  | (k, w) :: rest, key, v => if k = key then (key, v) :: rest else (k, w) :: mapSet rest key v

/-- Type of `subnetUserCounts`, a Go `map[string]map[string]int`. -/
abbrev Counts := List (String × List (String × Nat))

/-- Body of `for _, match := range matches`: the inner map of the VDOM is
created when missing and the counter of the address name is incremented. -/
def countMatch (subnetUserCounts : Counts) (m : SubnetMatch) : Counts :=
  let vdom := m.VDOM
  let address := m.Address
  let subnetUserCounts :=
    if mapGet subnetUserCounts vdom = none then mapSet subnetUserCounts vdom []
    else subnetUserCounts
  let inner := (mapGet subnetUserCounts vdom).getD []
  mapSet subnetUserCounts vdom
    (mapSet inner address.Name ((mapGet inner address.Name).getD 0 + 1))

/-- Body of `for _, result := range fw.Results`. -/
def countSession (addresses : FirewallAddresses) (subnetUserCounts : Counts)
    (result : UserFirewallResult) : Counts :=
  let userIP := ParseIP result.IPAddr
  let matches_ := findLongestPrefixMatch userIP addresses
  matches_.foldl countMatch subnetUserCounts

/-- Aggregation loop of `probeFirewallAddress` (lines 53 to 68), run on an
empty `subnetUserCounts`. -/
def subnetUserCounts (userFirewalls : List UserFirewall) (addresses : FirewallAddresses) :
    Counts :=
  userFirewalls.foldl (fun counts fw => fw.Results.foldl (countSession addresses) counts) []

/-- Value read at `subnetUserCounts[vdom][name]`; a missing key reads as 0. -/
def getCount (counts : Counts) (vdom name : String) : Nat :=
  match mapGet counts vdom with
  | none => 0
  | some inner => (mapGet inner name).getD 0

/-! ## Metrics and the probes -/

/-- Go `prometheus.Metric` as built by `MustNewConstMetric(desc, GaugeValue,
value, labelValues...)`: the name, help text and label names of the
descriptor, the exact value of the `float64` passed as value (an integer, the
source passing `float64` of an integer), and the label values. A counter of
`subnetUserCounts` is below `2^53`, where `float64` changes nothing. -/
structure Metric where
  fqName : String
  help : String
  labelNames : List String
  value : Int
  labelValues : List String
deriving DecidableEq, Repr

/-- The client `http.FortiHTTP` as far as the probes use it: the outcome of
`Get("/api/v2/cmdb/firewall/address", "vdom=*", ...)` and of
`Get("/api/v2/monitor/user/firewall", "vdom=*", ...)`, an error or the decoded
response. -/
structure FortiHTTP where
  firewallAddress : Except String FirewallAddresses
  userFirewall : Except String (List UserFirewall)

/-- Go `fetchUserFirewallData(c)`. -/
def fetchUserFirewallData (c : FortiHTTP) : Except String (List UserFirewall) :=
  match c.userFirewall with
  | .error err => .error err
  | .ok res => .ok res

/-- Go `processUserFirewallData(userFirewalls)`. -/
def processUserFirewallData (userFirewalls : List UserFirewall) : List Metric :=
  userFirewalls.foldl (fun metrics fw =>
    fw.Results.foldl (fun metrics r =>
      (metrics ++ [{ fqName := "fortigate_user_firewall_duration_seconds",
                     help := "Duration of user firewall activity in seconds",
                     labelNames := ["vdom", "ipaddr", "method", "type"],
                     value := float64 r.DurationSecs,
                     labelValues := [fw.VDOM, r.IPAddr, r.Method, r.Type_] }]) ++
        [{ fqName := "fortigate_user_firewall_traffic_bytes",
           help := "Traffic volume in bytes for user firewall activity",
           labelNames := ["vdom", "ipaddr", "method", "type"],
           value := float64 r.TrafficVolBytes,
           labelValues := [fw.VDOM, r.IPAddr, r.Method, r.Type_] }]) metrics) []

/-- Go `probeUserFirewall(c, meta)`; the nil slice of metrics is `[]`. -/
def probeUserFirewall (c : FortiHTTP) : List Metric × Bool :=
  match fetchUserFirewallData c with
  | .error _ => ([], false)
  | .ok userFirewallData => (processUserFirewallData userFirewallData, true)

/-- Second loop of `probeFirewallAddress` (lines 70 to 76): one gauge per
counter. Go ranges over a map in an unspecified order; the entries are taken
here in the order of the list that stands for the map. -/
def emitCounts (counts : Counts) : List Metric :=
  counts.foldl (fun metrics entry =>
    entry.2.foldl (fun metrics sub =>
      metrics ++ [{ fqName := "fortigate_user_count_per_subnet",
                    help := "Number of active users per subnet",
                    labelNames := ["subnet_name", "subnet", "vdom"],
                    value := (sub.2 : Int),
                    labelValues := [sub.1, sub.1, entry.1] }]) metrics) []

/-- Go `probeFirewallAddress(c, meta)`: the metrics (the nil slice is `[]`),
the success flag, and the paths requested from the client, in order. -/
def probeFirewallAddress (c : FortiHTTP) : (List Metric × Bool) × List String :=
  match c.firewallAddress with
  | .error _ => (([], false), ["/api/v2/cmdb/firewall/address"])
  | .ok firewallAddresses =>
    match fetchUserFirewallData c with
    | .error _ =>
      (([], false), ["/api/v2/cmdb/firewall/address", "/api/v2/monitor/user/firewall"])
    | .ok userFirewalls =>
      ((emitCounts (subnetUserCounts userFirewalls firewallAddresses), true),
        ["/api/v2/cmdb/firewall/address", "/api/v2/monitor/user/firewall"])

/-! ## Address objects as the matcher sees them -/

/-- Network that `findLongestPrefixMatch` derives from an address object:
`Subnet` split on a space into exactly two tokens, `ipNetToCIDR` of the tokens,
`net.ParseCIDR` of the result. `none` for an object the loop skips. -/
def objectNet (a : FirewallAddressResult) : Option IPNet :=
  match stringsSplit a.Subnet ' ' with
  | [ip, mask] =>
    match ipNetToCIDR ip mask with
    | .error _ => none
    | .ok cidr => (ParseCIDR cidr).map (fun r => r.2)
  | _ => none

/-- A well-formed object contains the IP. -/
def containsIP (x : List Nat) (a : FirewallAddressResult) : Bool :=
  match objectNet a with
  | none => false
  | some subnet => subnet.Contains x

/-- Prefix length of a well-formed object (0 for a malformed one). -/
def prefixLen (a : FirewallAddressResult) : Nat :=
  match objectNet a with
  | none => 0
  | some subnet => (IPMask_Size subnet.Mask).1

/-- All address objects of a collection in iteration order (records in order,
their `Results` in order), each paired with the VDOM of its record. -/
def entries (addresses : FirewallAddresses) : List SubnetMatch :=
  addresses.flatMap (fun data =>
    data.Results.map (fun address => { Address := address, VDOM := data.VDOM }))

/-- All session results of the user-firewall records in iteration order. -/
def sessions (userFirewalls : List UserFirewall) : List UserFirewallResult :=
  userFirewalls.flatMap (fun fw => fw.Results)


/-! ## Notions used to state the properties, and scenarios -/

/-- Greatest prefix length among the entries that contain the IP (0 when none
does). -/
def maxPrefix (x : List Nat) (es : List SubnetMatch) : Nat :=
  es.foldl (fun b m => if containsIP x m.Address then max b (prefixLen m.Address) else b) 0

/-- An address object whose `Subnet` splits on a space into exactly two tokens
that `net.ParseIP` both accepts. -/
def parsesBoth (a : FirewallAddressResult) : Bool :=
  let ipMask := stringsSplit a.Subnet ' '
  decide (ipMask.length = 2) && decide (ParseIP (ipMask.getD 0 "") ≠ []) &&
    decide (ParseIP (ipMask.getD 1 "") ≠ [])

/-- The address collection without the objects that fail `parsesBoth`. -/
def dropMalformed (addresses : FirewallAddresses) : FirewallAddresses :=
  addresses.map (fun data => { data with Results := data.Results.filter parsesBoth })

/-- The user-firewall records without the sessions whose `IPAddr` `net.ParseIP`
rejects. -/
def dropUnparseable (userFirewalls : List UserFirewall) : List UserFirewall :=
  userFirewalls.map (fun fw =>
    { fw with Results := fw.Results.filter (fun r => decide (ParseIP r.IPAddr ≠ [])) })

/-- A user-firewall record of the given VDOM holding the given sessions. -/
def userFirewallOf (vdom : String) (results : List UserFirewallResult) : UserFirewall :=
  { HttpMethod := "GET", Results := results, VDOM := vdom, Path := "user", Name := "firewall",
    Action := "", Status := "success", Serial := "", Version := "", Build := 0 }

/-- A session with the given `IPAddr`. -/
def sessionOf (ipaddr : String) : UserFirewallResult :=
  { Type_ := "auth_logon", ID := 1, DurationSecs := 60, AuthType := 0, IPAddr := ipaddr,
    SrcType := "ipv4", ExpirySecs := 0, TrafficVolBytes := 1024, Method := "Firewall" }

/-- Address objects of the scenario of the spec: `net-a` (a /24) and `net-b`
(a /8) in VDOM `root`. -/
def scenarioAddresses : FirewallAddresses :=
  [{ Results := [{ Name := "net-a", Subnet := "10.0.0.0 255.255.255.0", Type_ := "ipmask" },
                 { Name := "net-b", Subnet := "10.0.0.0 255.0.0.0", Type_ := "ipmask" }],
     VDOM := "root" }]

/-- Sessions of the scenario of the spec: one session at 10.0.0.5 in VDOM `root`. -/
def scenarioSessions : List UserFirewall :=
  [userFirewallOf "root" [sessionOf "10.0.0.5"]]

/-- Two /24 objects of different VDOMs and a /8 object. -/
def fanOutAddresses : FirewallAddresses :=
  [{ Results := [{ Name := "lan", Subnet := "10.0.0.0 255.255.255.0", Type_ := "ipmask" },
                 { Name := "wide", Subnet := "10.0.0.0 255.0.0.0", Type_ := "ipmask" }],
     VDOM := "root" },
   { Results := [{ Name := "lan2", Subnet := "10.0.0.128 255.255.255.0", Type_ := "ipmask" }],
     VDOM := "guest" }]

/-- Entry of the object `lan` of `fanOutAddresses`, VDOM `root`. -/
def lanMatch : SubnetMatch :=
  { Address := { Name := "lan", Subnet := "10.0.0.0 255.255.255.0", Type_ := "ipmask" },
    VDOM := "root" }

/-- Entry of the object `lan2` of `fanOutAddresses`, VDOM `guest`. -/
def lan2Match : SubnetMatch :=
  { Address := { Name := "lan2", Subnet := "10.0.0.128 255.255.255.0", Type_ := "ipmask" },
    VDOM := "guest" }

/-- The string is a valid IPv4 dotted quad: `netip.parseIPv4` accepts it. -/
def parsesAsIPv4 (s : String) : Bool :=
  (parseIPv4 s.data).isSome

/-- A collection holding a single catch-all object `0.0.0.0 0.0.0.0`. -/
def catchAllAddresses : FirewallAddresses :=
  [{ Results := [{ Name := "all", Subnet := "0.0.0.0 0.0.0.0", Type_ := "ipmask" }],
     VDOM := "root" }]

/-- Entry of the object `all` of `catchAllAddresses`. -/
def catchAllMatch : SubnetMatch :=
  { Address := { Name := "all", Subnet := "0.0.0.0 0.0.0.0", Type_ := "ipmask" },
    VDOM := "root" }

/-- The 8 bits of a byte, most significant first. -/
def byteBits (v : Nat) : List Bool :=
  [v.testBit 7, v.testBit 6, v.testBit 5, v.testBit 4, v.testBit 3, v.testBit 2, v.testBit 1,
    v.testBit 0]

/-- The bits of a mask, byte after byte. -/
def maskBits (m : List Nat) : List Bool :=
  m.flatMap byteBits

/-- Number of leading one-bits of a bit sequence. -/
def leadingOnes (bits : List Bool) : Nat :=
  (bits.takeWhile id).length

/-- The bit sequence is made of ones followed by zeros only: the one-bits are
contiguous and leading. -/
def onesThenZeros (bits : List Bool) : Bool :=
  (bits.dropWhile id).all (fun b => !b)

/-- The 32 bits of the contiguous IPv4 mask of prefix length `n`: `n` ones
followed by `32 - n` zeros. -/
def prefixBits (n : Nat) : List Bool :=
  List.replicate n true ++ List.replicate (32 - n) false

/-- Two /24 objects of different VDOMs, `lan` in `root` and `lan2` in `guest`. -/
def tieAddresses : FirewallAddresses :=
  [{ Results := [{ Name := "lan", Subnet := "10.0.0.0 255.255.255.0", Type_ := "ipmask" }],
     VDOM := "root" },
   { Results := [{ Name := "lan2", Subnet := "10.0.0.128 255.255.255.0", Type_ := "ipmask" }],
     VDOM := "guest" }]

/-- The gauge `fortigate_user_count_per_subnet` that `probeFirewallAddress`
builds for the counter of `(vdom, name)`: label values `(name, name, vdom)` for
the labels `(subnet_name, subnet, vdom)`. -/
def userCountGauge (vdom name : String) (count : Nat) : Metric :=
  { fqName := "fortigate_user_count_per_subnet",
    help := "Number of active users per subnet",
    labelNames := ["subnet_name", "subnet", "vdom"],
    value := (count : Int),
    labelValues := [name, name, vdom] }

/-- An order in which the two nested `range` loops over the map `counts` may
visit it: the entries of the outer map in some order, each inner map with its
entries in some order. -/
def IterationOrder (counts visited : Counts) : Prop :=
  ∃ d, List.Perm counts d ∧
    List.Forall₂ (fun e e' => e.1 = e'.1 ∧ List.Perm e.2 e'.2) d visited

/-- The counter map is well formed: no key occurs twice in the outer map or in
an inner map, no inner map is empty and every counter is at least 1. -/
def CountsWF (counts : Counts) : Prop :=
  (counts.map Prod.fst).Nodup ∧
    ∀ e ∈ counts, (e.2.map Prod.fst).Nodup ∧ e.2 ≠ [] ∧ ∀ f ∈ e.2, 1 ≤ f.2

/-- Value of a bit sequence read as a binary numeral, most significant bit
first. -/
def bitsValue (bits : List Bool) : Nat :=
  bits.foldl (fun acc b => 2 * acc + (if b then 1 else 0)) 0

/-- Replacement of the address `a` by `a'` in an address object whose `Subnet`
is `a`, a space and `mask`; every other object is left as it is. -/
def replaceAddress (a a' mask : String) (o : FirewallAddressResult) : FirewallAddressResult :=
  if o.Subnet = a ++ " " ++ mask then { o with Subnet := a' ++ " " ++ mask } else o

/-- An address collection with every object changed by `g`. -/
def mapObjects (g : FirewallAddressResult → FirewallAddressResult)
    (addresses : FirewallAddresses) : FirewallAddresses :=
  addresses.map (fun data => { data with Results := data.Results.map g })

/-- A match with its address object changed by `g`. -/
def mapMatch (g : FirewallAddressResult → FirewallAddressResult) (m : SubnetMatch) :
    SubnetMatch :=
  { m with Address := g m.Address }

/-- Two /24 objects of VDOM `root` that share the name `dup`. -/
def sharedNameAddresses : FirewallAddresses :=
  [{ Results := [{ Name := "dup", Subnet := "10.0.0.0 255.255.255.0", Type_ := "ipmask" },
                 { Name := "dup", Subnet := "10.0.0.1 255.255.255.0", Type_ := "ipmask" }],
     VDOM := "root" }]

/-- A client whose two fetches succeed with `sharedNameAddresses` and with the
session of the scenario. -/
def sharedNameClient : FortiHTTP :=
  { firewallAddress := Except.ok sharedNameAddresses,
    userFirewall := Except.ok scenarioSessions }

/-- The gauge `fortigate_user_firewall_duration_seconds` of a session of the
given VDOM. -/
def durationGauge (vdom : String) (r : UserFirewallResult) : Metric :=
  { fqName := "fortigate_user_firewall_duration_seconds",
    help := "Duration of user firewall activity in seconds",
    labelNames := ["vdom", "ipaddr", "method", "type"],
    value := float64 r.DurationSecs,
    labelValues := [vdom, r.IPAddr, r.Method, r.Type_] }

/-- The gauge `fortigate_user_firewall_traffic_bytes` of a session of the given
VDOM. -/
def trafficGauge (vdom : String) (r : UserFirewallResult) : Metric :=
  { fqName := "fortigate_user_firewall_traffic_bytes",
    help := "Traffic volume in bytes for user firewall activity",
    labelNames := ["vdom", "ipaddr", "method", "type"],
    value := float64 r.TrafficVolBytes,
    labelValues := [vdom, r.IPAddr, r.Method, r.Type_] }

/-- All session results in iteration order, each with the VDOM of its record. -/
def sessionPairs (userFirewalls : List UserFirewall) : List (String × UserFirewallResult) :=
  userFirewalls.flatMap (fun fw => fw.Results.map (fun r => (fw.VDOM, r)))

/-- A session whose `TrafficVolBytes` is `2^53 + 1` and whose `DurationSecs` is
`2^53 + 3`, two integers that no double represents. -/
def largeSession : UserFirewallResult :=
  { Type_ := "auth_logon", ID := 1, DurationSecs := 9007199254740995, AuthType := 0,
    IPAddr := "10.0.0.5", SrcType := "ipv4", ExpirySecs := 0,
    TrafficVolBytes := 9007199254740993, Method := "Firewall" }

/-! ## Theorems -/

theorem matchAddress_eq (x : List Nat) (v : String) (st : List SubnetMatch × Nat)
    (a : FirewallAddressResult) :
    matchAddress x v st a =
      if containsIP x a then
        if prefixLen a > st.2 then ([{ Address := a, VDOM := v }], prefixLen a)
        else if prefixLen a = st.2 then (st.1 ++ [{ Address := a, VDOM := v }], st.2)
        else st
      else st := by
  unfold matchAddress containsIP prefixLen objectNet
  rcases h : stringsSplit a.Subnet ' ' with _ | ⟨t0, _ | ⟨t1, _ | ⟨t2, r⟩⟩⟩
  · simp
  · simp
  · have h2 : ¬ (0 + 1 + 1 ≠ 2) := by decide
    simp only [List.length_cons, List.length_nil, List.getD_cons_zero, List.getD_cons_succ,
      if_neg h2]
    obtain ⟨r, hr⟩ : ∃ r, ipNetToCIDR t0 t1 = r := ⟨_, rfl⟩
    simp only [hr]
    cases r with
    | error e => simp
    | ok cidr =>
      obtain ⟨q, hq⟩ : ∃ q, ParseCIDR cidr = q := ⟨_, rfl⟩
      simp only [hq]
      cases q with
      | none => simp
      | some r => simp
  · simp

theorem foldl_entries (x : List Nat) (addresses : FirewallAddresses)
    (st : List SubnetMatch × Nat) :
    addresses.foldl (fun st data => data.Results.foldl (matchAddress x data.VDOM) st) st =
      (entries addresses).foldl (fun st m => matchAddress x m.VDOM st m.Address) st := by
  induction addresses generalizing st with
  | nil => rfl
  | cons d rest ih =>
    simp only [List.foldl_cons, entries, List.flatMap_cons, List.foldl_append, List.foldl_map]
    exact ih _

theorem maxPrefix_append (x : List Nat) (es : List SubnetMatch) (m : SubnetMatch) :
    maxPrefix x (es ++ [m]) =
      if containsIP x m.Address then max (maxPrefix x es) (prefixLen m.Address)
      else maxPrefix x es := by
  simp [maxPrefix, List.foldl_append]

theorem le_maxPrefix (x : List Nat) (es : List SubnetMatch) (m : SubnetMatch)
    (hm : m ∈ es) (hc : containsIP x m.Address = true) :
    prefixLen m.Address ≤ maxPrefix x es := by
  induction es using List.reverseRecOn with
  | nil => simp at hm
  | append_singleton l a ih =>
    rw [maxPrefix_append]
    rcases List.mem_append.1 hm with h | h
    · have := ih h
      split <;> omega
    · have ha : m = a := by simpa using h
      subst ha
      simp [hc]

theorem maxPrefix_attained (x : List Nat) (es : List SubnetMatch) :
    maxPrefix x es = 0 ∨
      ∃ m ∈ es, containsIP x m.Address = true ∧ prefixLen m.Address = maxPrefix x es := by
  induction es using List.reverseRecOn with
  | nil => left; rfl
  | append_singleton l a ih =>
    rw [maxPrefix_append]
    by_cases hc : containsIP x a.Address = true
    · simp only [hc, if_true]
      rcases Nat.le_total (maxPrefix x l) (prefixLen a.Address) with h | h
      · right
        exact ⟨a, by simp, hc, by omega⟩
      · rcases ih with h0 | ⟨m, hm, hmc, hmp⟩
        · right
          exact ⟨a, by simp, hc, by omega⟩
        · right
          exact ⟨m, by simp [hm], hmc, by omega⟩
    · simp only [hc]
      rcases ih with h0 | ⟨m, hm, hmc, hmp⟩
      · left; simpa using h0
      · right
        exact ⟨m, by simp [hm], hmc, by simpa using hmp⟩

theorem foldl_select (x : List Nat) (es : List SubnetMatch) :
    es.foldl (fun st m => matchAddress x m.VDOM st m.Address) ([], 0) =
      (es.filter (fun m => containsIP x m.Address && prefixLen m.Address == maxPrefix x es),
        maxPrefix x es) := by
  induction es using List.reverseRecOn with
  | nil => rfl
  | append_singleton l a ih =>
    rw [List.foldl_append, ih, maxPrefix_append]
    simp only [List.foldl_cons, List.foldl_nil, matchAddress_eq, List.filter_append]
    by_cases hc : containsIP x a.Address = true
    · simp only [hc, if_true]
      rcases Nat.lt_trichotomy (maxPrefix x l) (prefixLen a.Address) with h | h | h
      · have hmax : max (maxPrefix x l) (prefixLen a.Address) = prefixLen a.Address := by omega
        have hnil : l.filter (fun m => containsIP x m.Address &&
            prefixLen m.Address == prefixLen a.Address) = [] := by
          rw [List.filter_eq_nil_iff]
          intro m hm
          simp only [Bool.and_eq_true, beq_iff_eq, not_and]
          intro hmc
          have := le_maxPrefix x l m hm hmc
          omega
        simp [h, hmax, hnil, hc]
      · have hmax : max (maxPrefix x l) (prefixLen a.Address) = maxPrefix x l := by omega
        simp [h, hmax, hc]
      · have hmax : max (maxPrefix x l) (prefixLen a.Address) = maxPrefix x l := by omega
        have h1 : ¬ prefixLen a.Address > maxPrefix x l := by omega
        have h2 : ¬ prefixLen a.Address = maxPrefix x l := by omega
        simp [h1, h2, hmax, hc]
    · simp [hc]

theorem findLongestPrefixMatch_eq (x : List Nat) (addresses : FirewallAddresses) :
    findLongestPrefixMatch x addresses =
      (entries addresses).filter (fun m => containsIP x m.Address &&
        prefixLen m.Address == maxPrefix x (entries addresses)) := by
  unfold findLongestPrefixMatch
  rw [foldl_entries, foldl_select]

theorem prefix_eq_max_iff (x : List Nat) (es : List SubnetMatch) (m : SubnetMatch)
    (hm : m ∈ es) (hc : containsIP x m.Address = true) :
    prefixLen m.Address = maxPrefix x es ↔
      ∀ e ∈ es, containsIP x e.Address = true → prefixLen e.Address ≤ prefixLen m.Address := by
  constructor
  · intro h e he hec
    rw [h]
    exact le_maxPrefix x es e he hec
  · intro h
    have h1 := le_maxPrefix x es m hm hc
    rcases maxPrefix_attained x es with h0 | ⟨e, he, hec, hep⟩
    · omega
    · have := h e he hec
      omega

theorem findLongestPrefixMatch_filter (x : List Nat) (addresses : FirewallAddresses) :
    findLongestPrefixMatch x addresses =
      (entries addresses).filter (fun m => containsIP x m.Address &&
        decide (∀ e ∈ entries addresses, containsIP x e.Address = true →
          prefixLen e.Address ≤ prefixLen m.Address)) := by
  rw [findLongestPrefixMatch_eq]
  apply List.filter_congr
  intro m hm
  by_cases hc : containsIP x m.Address = true
  · simp only [hc, Bool.true_and]
    rw [Bool.eq_iff_iff]
    simp only [beq_iff_eq, decide_eq_true_eq]
    exact prefix_eq_max_iff x _ m hm hc
  · simp [hc]

theorem objectNet_eq_some_iff (a : FirewallAddressResult) (subnet : IPNet) :
    objectNet a = some subnet ↔
      ∃ ip mask cidr addr, stringsSplit a.Subnet ' ' = [ip, mask] ∧
        ipNetToCIDR ip mask = Except.ok cidr ∧ ParseCIDR cidr = some (addr, subnet) := by
  unfold objectNet
  rcases hs : stringsSplit a.Subnet ' ' with _ | ⟨t0, _ | ⟨t1, _ | ⟨t2, r⟩⟩⟩
  · simp
  · simp
  · obtain ⟨r, hr⟩ : ∃ r, ipNetToCIDR t0 t1 = r := ⟨_, rfl⟩
    simp only [hr]
    cases r with
    | error e => simp [hr]
    | ok cidr =>
      constructor
      · intro h
        obtain ⟨q, hq, hq2⟩ := Option.map_eq_some'.1 h
        exact ⟨t0, t1, cidr, q.1, rfl, hr, by rw [hq, ← hq2]⟩
      · rintro ⟨ip, mask, cidr', addr, h1, h2, h3⟩
        simp only [List.cons.injEq, and_true] at h1
        obtain ⟨rfl, rfl⟩ := h1
        rw [hr] at h2
        have hc : cidr = cidr' := Except.ok.inj h2
        subst hc
        simp [h3]
  · simp

/-- C1: `findLongestPrefixMatch` returns, in iteration order and with duplicates
kept, exactly the well-formed address objects that contain the IP and whose
prefix length is the greatest among the well-formed objects containing the IP,
each paired with the VDOM of its record. An object is well-formed when its
`Subnet` splits on a space into exactly two tokens on which `ipNetToCIDR`
succeeds with a text that `net.ParseCIDR` accepts; it contains the IP when the
parsed network does, and its prefix length is the size of that network's mask. -/
theorem findLongestPrefixMatch_spec (x : List Nat) (addresses : FirewallAddresses) :
    findLongestPrefixMatch x addresses =
        (entries addresses).filter (fun m => containsIP x m.Address &&
          decide (∀ e ∈ entries addresses, containsIP x e.Address = true →
            prefixLen e.Address ≤ prefixLen m.Address)) ∧
      ∀ a : FirewallAddressResult,
        (containsIP x a = true ↔
          ∃ ip mask cidr addr subnet, stringsSplit a.Subnet ' ' = [ip, mask] ∧
            ipNetToCIDR ip mask = Except.ok cidr ∧ ParseCIDR cidr = some (addr, subnet) ∧
            subnet.Contains x = true) ∧
        (∀ ip mask cidr addr subnet, stringsSplit a.Subnet ' ' = [ip, mask] →
          ipNetToCIDR ip mask = Except.ok cidr → ParseCIDR cidr = some (addr, subnet) →
            prefixLen a = (IPMask_Size subnet.Mask).1) := by
  refine ⟨findLongestPrefixMatch_filter x addresses, fun a => ⟨?_, ?_⟩⟩
  · unfold containsIP
    constructor
    · intro h
      cases ho : objectNet a with
      | none => simp [ho] at h
      | some subnet =>
        obtain ⟨ip, mask, cidr, addr, h1, h2, h3⟩ := (objectNet_eq_some_iff a subnet).1 ho
        exact ⟨ip, mask, cidr, addr, subnet, h1, h2, h3, by simpa [ho] using h⟩
    · rintro ⟨ip, mask, cidr, addr, subnet, h1, h2, h3, h4⟩
      have ho := (objectNet_eq_some_iff a subnet).2 ⟨ip, mask, cidr, addr, h1, h2, h3⟩
      simp [ho, h4]
  · intro ip mask cidr addr subnet h1 h2 h3
    have ho := (objectNet_eq_some_iff a subnet).2 ⟨ip, mask, cidr, addr, h1, h2, h3⟩
    simp [prefixLen, ho]

/-! ### The counter map -/

theorem mapGet_mapSet_same {β : Type} (m : List (String × β)) (k : String) (v : β) :
    mapGet (mapSet m k v) k = some v := by
  induction m with
  | nil => simp [mapSet, mapGet]
  | cons e rest ih =>
    obtain ⟨k', w⟩ := e
    by_cases h : k' = k
    · simp [mapSet, mapGet, h]
    · simp [mapSet, mapGet, h, ih]

theorem mapGet_mapSet_ne {β : Type} (m : List (String × β)) (k k' : String) (v : β)
    (h : k ≠ k') : mapGet (mapSet m k v) k' = mapGet m k' := by
  induction m with
  | nil => simp [mapSet, mapGet, h]
  | cons e rest ih =>
    obtain ⟨k0, w⟩ := e
    by_cases h0 : k0 = k
    · subst h0
      simp [mapSet, mapGet, h]
    · simp [mapSet, mapGet, h0, ih]

theorem getCount_countMatch (counts : Counts) (m : SubnetMatch) (vdom name : String) :
    getCount (countMatch counts m) vdom name =
      getCount counts vdom name +
        if m.VDOM = vdom ∧ m.Address.Name = name then 1 else 0 := by
  unfold countMatch getCount
  by_cases hv : m.VDOM = vdom
  · subst hv
    cases hg : mapGet counts m.VDOM with
    | none =>
      by_cases hn : m.Address.Name = name
      · subst hn
        simp [hg, mapGet_mapSet_same, mapGet]
      · simp [hg, mapGet_mapSet_same, mapGet_mapSet_ne _ _ _ _ hn, mapGet, hn]
    | some inner =>
      by_cases hn : m.Address.Name = name
      · subst hn
        simp [hg, mapGet_mapSet_same]
      · simp [hg, mapGet_mapSet_same, mapGet_mapSet_ne _ _ _ _ hn, hn]
  · cases hg : mapGet counts m.VDOM with
    | none => simp [hg, mapGet_mapSet_ne _ _ _ _ hv, hv]
    | some inner => simp [hg, mapGet_mapSet_ne _ _ _ _ hv, hv]

theorem getCount_foldl_countMatch (ms : List SubnetMatch) (counts : Counts)
    (vdom name : String) :
    getCount (ms.foldl countMatch counts) vdom name =
      getCount counts vdom name +
        ms.countP (fun m => decide (m.VDOM = vdom ∧ m.Address.Name = name)) := by
  induction ms generalizing counts with
  | nil => simp
  | cons m rest ih =>
    rw [List.foldl_cons, ih, getCount_countMatch, List.countP_cons]
    simp only [decide_eq_true_eq]
    omega

theorem foldl_sessions (addresses : FirewallAddresses) (userFirewalls : List UserFirewall)
    (counts : Counts) :
    userFirewalls.foldl (fun counts fw => fw.Results.foldl (countSession addresses) counts)
        counts =
      (sessions userFirewalls).foldl (countSession addresses) counts := by
  induction userFirewalls generalizing counts with
  | nil => rfl
  | cons fw rest ih =>
    simp only [List.foldl_cons, sessions, List.flatMap_cons, List.foldl_append]
    exact ih _

theorem getCount_foldl_countSession (addresses : FirewallAddresses)
    (ss : List UserFirewallResult) (counts : Counts) (vdom name : String) :
    getCount (ss.foldl (countSession addresses) counts) vdom name =
      getCount counts vdom name +
        (ss.map (fun r => (findLongestPrefixMatch (ParseIP r.IPAddr) addresses).countP
          (fun m => decide (m.VDOM = vdom ∧ m.Address.Name = name)))).sum := by
  induction ss generalizing counts with
  | nil => simp
  | cons r rest ih =>
    rw [List.foldl_cons, ih, countSession, getCount_foldl_countMatch]
    simp only [List.map_cons, List.sum_cons]
    omega

/-- C2: after the aggregation loop the counter read at `(vdom, name)` is the
number of pairs (session, match) with the match among
`findLongestPrefixMatch (ParseIP session.IPAddr) addresses`, of that VDOM and
that address name, over all sessions of all user-firewall records; the loop
starts from the empty map. -/
theorem subnetUserCounts_spec (userFirewalls : List UserFirewall)
    (addresses : FirewallAddresses) (vdom name : String) :
    getCount (subnetUserCounts userFirewalls addresses) vdom name =
        ((sessions userFirewalls).map (fun r =>
          (findLongestPrefixMatch (ParseIP r.IPAddr) addresses).countP
            (fun m => decide (m.VDOM = vdom ∧ m.Address.Name = name)))).sum
      ∧ subnetUserCounts [] addresses = [] := by
  refine ⟨?_, rfl⟩
  unfold subnetUserCounts
  rw [foldl_sessions, getCount_foldl_countSession]
  simp [getCount, mapGet]

/-! ### Consequences of the characterisation -/

theorem mem_findLongestPrefixMatch (x : List Nat) (addresses : FirewallAddresses)
    (m : SubnetMatch) :
    m ∈ findLongestPrefixMatch x addresses ↔
      m ∈ entries addresses ∧ containsIP x m.Address = true ∧
        ∀ e ∈ entries addresses, containsIP x e.Address = true →
          prefixLen e.Address ≤ prefixLen m.Address := by
  rw [findLongestPrefixMatch_filter, List.mem_filter]
  simp only [Bool.and_eq_true, decide_eq_true_eq]

/-- C5: two well-formed objects of equal prefix length that both contain the IP
are returned together or not at all, and both are returned when their prefix
length is the greatest among the well-formed objects containing the IP. -/
theorem fan_out (x : List Nat) (addresses : FirewallAddresses) (s1 s2 : SubnetMatch)
    (h1 : s1 ∈ entries addresses) (h2 : s2 ∈ entries addresses)
    (hc1 : containsIP x s1.Address = true) (hc2 : containsIP x s2.Address = true)
    (hp : prefixLen s1.Address = prefixLen s2.Address) :
    (s1 ∈ findLongestPrefixMatch x addresses ↔ s2 ∈ findLongestPrefixMatch x addresses) ∧
      ((∀ e ∈ entries addresses, containsIP x e.Address = true →
          prefixLen e.Address ≤ prefixLen s1.Address) →
        s1 ∈ findLongestPrefixMatch x addresses ∧ s2 ∈ findLongestPrefixMatch x addresses) := by
  simp only [mem_findLongestPrefixMatch]
  refine ⟨⟨fun h => ⟨h2, hc2, ?_⟩, fun h => ⟨h1, hc1, ?_⟩⟩, fun h => ⟨⟨h1, hc1, h⟩, h2, hc2, ?_⟩⟩
  · intro e he hec
    have := h.2.2 e he hec
    omega
  · intro e he hec
    have := h.2.2 e he hec
    omega
  · intro e he hec
    have := h e he hec
    omega


/-- Witness of C5: at 10.0.0.5 the /24 objects `lan` (VDOM root) and `lan2`
(VDOM guest), of the greatest prefix length, are both returned. -/
theorem fan_out_witness :
    lanMatch ∈ findLongestPrefixMatch (ParseIP "10.0.0.5") fanOutAddresses ∧
      lan2Match ∈ findLongestPrefixMatch (ParseIP "10.0.0.5") fanOutAddresses :=
  (fan_out (ParseIP "10.0.0.5") fanOutAddresses lanMatch lan2Match (by decide) (by decide)
    (by decide) (by decide) (by decide)).2 (by decide)

/-- C6: no returned object has a prefix length smaller than that of a
well-formed object containing the IP, so an object with a shorter prefix than
another containing object is never returned; in the scenario of the spec
(net-a /24 and net-b /8 in VDOM root, one session at 10.0.0.5) the aggregate is
`(root, net-a) : 1` with no entry for net-b. -/
theorem longest_prefix_wins :
    (∀ (x : List Nat) (addresses : FirewallAddresses),
      (∀ m ∈ findLongestPrefixMatch x addresses, ∀ e ∈ entries addresses,
        containsIP x e.Address = true → prefixLen e.Address ≤ prefixLen m.Address) ∧
      (∀ e1 ∈ entries addresses, ∀ e2 ∈ entries addresses,
        containsIP x e1.Address = true → prefixLen e2.Address < prefixLen e1.Address →
          e2 ∉ findLongestPrefixMatch x addresses)) ∧
    prefixLen { Name := "net-a", Subnet := "10.0.0.0 255.255.255.0", Type_ := "ipmask" } = 24 ∧
    prefixLen { Name := "net-b", Subnet := "10.0.0.0 255.0.0.0", Type_ := "ipmask" } = 8 ∧
    subnetUserCounts scenarioSessions scenarioAddresses = [("root", [("net-a", 1)])] ∧
    getCount (subnetUserCounts scenarioSessions scenarioAddresses) "root" "net-a" = 1 ∧
    mapGet ((mapGet (subnetUserCounts scenarioSessions scenarioAddresses) "root").getD [])
      "net-b" = none := by
  refine ⟨fun x addresses => ⟨?_, ?_⟩, by decide, by decide, by decide, by decide, by decide⟩
  · intro m hm
    exact ((mem_findLongestPrefixMatch x addresses m).1 hm).2.2
  · intro e1 h1 e2 _ hc1 hlt hmem
    have := ((mem_findLongestPrefixMatch x addresses e2).1 hmem).2.2 e1 h1 hc1
    omega

theorem foldl_filter_of_id {α β : Type} (f : β → α → β) (q : α → Bool) (l : List α) (b : β)
    (h : ∀ b a, q a = false → f b a = b) : (l.filter q).foldl f b = l.foldl f b := by
  induction l generalizing b with
  | nil => rfl
  | cons a rest ih =>
    cases hq : q a with
    | true => simp [List.filter_cons, hq, ih]
    | false => simp [List.filter_cons, hq, ih, h b a hq]

theorem findLongestPrefixMatch_nil_of_none (x : List Nat) (addresses : FirewallAddresses)
    (h : ∀ e ∈ entries addresses, containsIP x e.Address = false) :
    findLongestPrefixMatch x addresses = [] := by
  rw [findLongestPrefixMatch_filter, List.filter_eq_nil_iff]
  intro m hm
  simp [h m hm]

/-- C7: when no well-formed object contains the IP, `findLongestPrefixMatch`
returns the empty list, and a session with that IP leaves the counter map as it
was, whatever it held: no counter changes and no key is added. -/
theorem no_match_no_count (x : List Nat) (addresses : FirewallAddresses)
    (h : ∀ e ∈ entries addresses, containsIP x e.Address = false) :
    findLongestPrefixMatch x addresses = [] ∧
      ∀ (counts : Counts) (r : UserFirewallResult), ParseIP r.IPAddr = x →
        countSession addresses counts r = counts := by
  have h0 := findLongestPrefixMatch_nil_of_none x addresses h
  refine ⟨h0, fun counts r hr => ?_⟩
  simp [countSession, hr, h0]

/-- Witness of C7: 192.168.1.1 lies in neither object of the scenario; the
session leaves a map holding one counter unchanged. -/
theorem no_match_no_count_witness :
    findLongestPrefixMatch (ParseIP "192.168.1.1") scenarioAddresses = [] ∧
      countSession scenarioAddresses [("root", [("net-a", 1)])] (sessionOf "192.168.1.1") =
        [("root", [("net-a", 1)])] :=
  ⟨(no_match_no_count (ParseIP "192.168.1.1") scenarioAddresses (by decide)).1,
    (no_match_no_count (ParseIP "192.168.1.1") scenarioAddresses (by decide)).2 _ _ rfl⟩

/-! ### Malformed objects and unparseable sessions -/

theorem parsesBoth_of_containsIP (x : List Nat) (a : FirewallAddressResult)
    (h : containsIP x a = true) : parsesBoth a = true := by
  unfold containsIP objectNet at h
  unfold parsesBoth
  rcases hs : stringsSplit a.Subnet ' ' with _ | ⟨t0, _ | ⟨t1, _ | ⟨t2, r⟩⟩⟩
  · simp [hs] at h
  · simp [hs] at h
  · simp only [hs] at h
    simp only [List.length_cons, List.length_nil, List.getD_cons_zero, List.getD_cons_succ]
    unfold ipNetToCIDR at h
    by_cases h0 : ParseIP t0 = []
    · simp [h0] at h
    · by_cases h1 : ParseIP t1 = []
      · simp [h0, h1] at h
      · simp [h0, h1]
  · simp [hs] at h

theorem entries_dropMalformed (addresses : FirewallAddresses) :
    entries (dropMalformed addresses) =
      (entries addresses).filter (fun m => parsesBoth m.Address) := by
  induction addresses with
  | nil => rfl
  | cons d rest ih =>
    have ih' : entries (List.map (fun data =>
        ({ data with Results := data.Results.filter parsesBoth } : FirewallAddressData)) rest) =
        (entries rest).filter (fun m => parsesBoth m.Address) := ih
    simp only [entries, dropMalformed, List.map_cons, List.flatMap_cons, List.filter_append,
      List.filter_map] at ih' ⊢
    rw [ih']
    rfl

/-- C9: removing every object whose `Subnet` does not split on a space into
exactly two tokens, or one of whose tokens `net.ParseIP` rejects, leaves the
result of `findLongestPrefixMatch` unchanged, and no such object is ever
returned; the single token `10.0.0.0/24`, the empty string, a string with a
doubled space and a string with a truncated mask are such objects. -/
theorem malformed_skipped (x : List Nat) (addresses : FirewallAddresses) :
    findLongestPrefixMatch x addresses = findLongestPrefixMatch x (dropMalformed addresses) ∧
      (∀ m ∈ findLongestPrefixMatch x addresses, parsesBoth m.Address = true) ∧
      (∀ name type_ : String,
        parsesBoth { Name := name, Subnet := "10.0.0.0/24", Type_ := type_ } = false ∧
        parsesBoth { Name := name, Subnet := "", Type_ := type_ } = false ∧
        parsesBoth { Name := name, Subnet := "10.0.0.0  255.255.255.0", Type_ := type_ } = false ∧
        parsesBoth { Name := name, Subnet := "10.0.0.0 255.255.255", Type_ := type_ } = false) := by
  refine ⟨?_, ?_, fun name type_ => ⟨by rfl, by rfl, by rfl, by rfl⟩⟩
  · unfold findLongestPrefixMatch
    rw [foldl_entries, foldl_entries, entries_dropMalformed, foldl_filter_of_id]
    intro st m hq
    rw [matchAddress_eq]
    have hc : containsIP x m.Address = false := by
      cases hc : containsIP x m.Address with
      | false => rfl
      | true => rw [parsesBoth_of_containsIP x _ hc] at hq; exact absurd hq (by decide)
    simp [hc]
  · intro m hm
    exact parsesBoth_of_containsIP x _ ((mem_findLongestPrefixMatch x addresses m).1 hm).2.1

/-! ### Lengths of parsed addresses and networks -/

theorem parseIPv4Loop_length (s : List Char) (a d : Bool) (v p dl : Nat) (fields r : List Nat)
    (h : parseIPv4Loop s a d v p dl fields = some r) : r.length = fields.length := by
  induction s generalizing a d v p dl fields with
  | nil =>
    simp only [parseIPv4Loop] at h
    split at h
    · simp at h
    · simp only [Option.some.injEq] at h
      rw [← h, List.length_set]
  | cons c rest ih =>
    simp only [parseIPv4Loop] at h
    split at h
    · split at h
      · simp at h
      · split at h
        · simp at h
        · exact ih _ _ _ _ _ _ h
    · split at h
      · split at h
        · simp at h
        · split at h
          · simp at h
          · rw [ih _ _ _ _ _ _ h, List.length_set]
      · simp at h

theorem parseIPv6Loop_length (k : Nat) (s : List Char) (i : Nat) (e : Option Nat)
    (ip : List Nat) (st : V6State) (h : parseIPv6Loop k s i e ip = some st)
    (hip : ip.length = 16) : st.ip.length = 16 := by
  induction k generalizing s i e ip with
  | zero =>
    simp only [parseIPv6Loop, Option.some.injEq] at h
    rw [← h]; exact hip
  | succ k ih =>
    simp only [parseIPv6Loop] at h
    split at h
    · simp only [Option.some.injEq] at h
      rw [← h]; exact hip
    · split at h
      · simp at h
      · split at h
        · simp at h
        · split at h
          · split at h
            · simp at h
            · split at h
              · simp at h
              · split at h
                · simp at h
                · rename_i fields hf
                  simp only [Option.some.injEq] at h
                  have hl := parseIPv4Loop_length _ _ _ _ _ _ _ _ hf
                  rw [← h]
                  simp only [List.length_append, List.length_take, List.length_drop, hl, hip]
                  omega
          · split at h
            · simp only [Option.some.injEq] at h
              rw [← h]; simpa using hip
            · split at h
              · simp at h
              · split at h
                · simp at h
                · split at h
                  · split at h
                    · simp at h
                    · split at h
                      · simp only [Option.some.injEq] at h
                        rw [← h]; simpa using hip
                      · exact ih _ _ _ _ h (by simpa using hip)
                  · exact ih _ _ _ _ h (by simpa using hip)

theorem parseIPv4_some (s : List Char) (a : Addr) (h : parseIPv4 s = some a) :
    ∃ fields, fields.length = 4 ∧ a = { bytes := v4InV6Prefix ++ fields, is4 := true, zone := "" }
      ∧ parseIPv4Fields s [0, 0, 0, 0] = some fields := by
  unfold parseIPv4 at h
  split at h
  · simp at h
  · rename_i fields hf
    simp only [Option.some.injEq] at h
    exact ⟨fields, by simpa using parseIPv4Loop_length _ _ _ _ _ _ _ _ hf, h.symm, hf⟩

theorem expandEllipsis_length (st : V6State) (ip : List Nat) (h : expandEllipsis st = some ip)
    (hst : st.ip.length = 16) : ip.length = 16 := by
  unfold expandEllipsis at h
  split at h
  · simp at h
  · split at h
    · split at h
      · simp at h
      · simp only [Option.some.injEq] at h
        rw [← h]; simp
    · split at h
      · simp at h
      · simp only [Option.some.injEq] at h
        rw [← h]; exact hst

theorem parseIPv6_some (s : List Char) (a : Addr) (h : parseIPv6 s = some a) :
    a.bytes.length = 16 ∧ a.is4 = false := by
  unfold parseIPv6 at h
  simp only at h
  split at h
  · simp at h
  · split at h
    · simp only [Option.some.injEq] at h
      rw [← h]; simp
    · split at h
      · simp at h
      · rename_i st hst
        split at h
        · simp at h
        · rename_i ip hip
          simp only [Option.some.injEq] at h
          rw [← h]
          exact ⟨expandEllipsis_length st ip hip
            (parseIPv6Loop_length _ _ _ _ _ _ hst (by simp)), rfl⟩

theorem ParseAddr_some (s : String) (a : Addr) (h : ParseAddr s = some a) :
    (a.is4 = true ∧ ∃ fields, fields.length = 4 ∧ a.bytes = v4InV6Prefix ++ fields ∧
        a.zone = "" ∧ parseIPv4Fields s.data [0, 0, 0, 0] = some fields) ∨
      (a.is4 = false ∧ a.bytes.length = 16) := by
  unfold ParseAddr at h
  split at h
  · simp at h
  · split at h
    · obtain ⟨fields, hl, ha, hf⟩ := parseIPv4_some _ _ h
      left
      subst ha
      exact ⟨rfl, fields, hl, rfl, rfl, hf⟩
    · split at h
      · right
        have := parseIPv6_some _ _ h
        exact ⟨this.2, this.1⟩
      · simp at h

theorem ParseAddr_length (s : String) (a : Addr) (h : ParseAddr s = some a) :
    a.bytes.length = 16 := by
  rcases ParseAddr_some s a h with ⟨_, fields, hl, hb, _⟩ | ⟨_, hl⟩
  · rw [hb]; simp [v4InV6Prefix, hl]
  · exact hl

theorem ParseIP_eq_nil_iff (s : String) :
    ParseIP s = [] ↔ ∀ a, ParseAddr s = some a → a.zone ≠ "" := by
  unfold ParseIP
  cases h : ParseAddr s with
  | none => simp
  | some a =>
    have hl := ParseAddr_length s a h
    have hne : a.bytes ≠ [] := by
      intro h0; rw [h0] at hl; simp at hl
    by_cases hz : a.zone = ""
    · simp [hz, hne]
    · simp [hz]

theorem cidrMaskLoop_length (k n : Nat) : (cidrMaskLoop k n).length = k := by
  induction k generalizing n with
  | zero => rfl
  | succ k ih =>
    unfold cidrMaskLoop
    split <;> simp [ih]

theorem CIDRMask_length (n bits : Nat) (hb : bits = 32 ∨ bits = 128) (hn : n ≤ bits) :
    (CIDRMask n bits).length = bits / 8 := by
  unfold CIDRMask
  rw [if_neg (by omega), if_neg (by omega)]
  exact cidrMaskLoop_length _ _

theorem IP_Mask_length_v4 (fields m : List Nat) (hl : fields.length = 4) (hm : m.length = 4) :
    (IP_Mask (v4InV6Prefix ++ fields) m).length = 4 := by
  unfold IP_Mask
  simp [v4InV6Prefix, hl, hm]

theorem IP_Mask_length_v6 (ip m : List Nat) (hl : ip.length = 16) (hm : m.length = 16) :
    (IP_Mask ip m).length = 16 := by
  unfold IP_Mask
  simp [hl, hm]

theorem ParseCIDR_lengths (s : String) (ip : List Nat) (subnet : IPNet)
    (h : ParseCIDR s = some (ip, subnet)) :
    (subnet.IP.length = 4 ∧ subnet.Mask.length = 4) ∨
      (subnet.IP.length = 16 ∧ subnet.Mask.length = 16) := by
  unfold ParseCIDR at h
  simp only at h
  split at h
  · simp at h
  · split at h
    · simp at h
    · rename_i ipAddr hA
      split at h
      · simp at h
      · rcases ParseAddr_some _ _ hA with ⟨h4, fields, hl, hb, _⟩ | ⟨h6, hl⟩
        · simp only [h4, if_true] at h
          split at h
          · simp at h
          · rename_i hcond
            simp only [not_or, not_not, gt_iff_lt, not_lt] at hcond
            simp only [Option.some.injEq, Prod.mk.injEq] at h
            obtain ⟨_, hnet⟩ := h
            subst hnet
            have hm := CIDRMask_length _ 32 (Or.inl rfl) hcond.2.2
            rw [show 32 / 8 = 4 from rfl] at hm
            left
            refine ⟨?_, hm⟩
            dsimp only
            rw [hb]
            exact IP_Mask_length_v4 _ _ hl hm
        · simp only [h6, Bool.false_eq_true, if_false] at h
          split at h
          · simp at h
          · rename_i hcond
            simp only [not_or, not_not, gt_iff_lt, not_lt] at hcond
            simp only [Option.some.injEq, Prod.mk.injEq] at h
            obtain ⟨_, hnet⟩ := h
            subst hnet
            have hm := CIDRMask_length _ 128 (Or.inr rfl) hcond.2.2
            rw [show 128 / 8 = 16 from rfl] at hm
            right
            refine ⟨?_, hm⟩
            dsimp only
            exact IP_Mask_length_v6 _ _ hl hm

theorem Contains_nil (subnet : IPNet)
    (h : (subnet.IP.length = 4 ∧ subnet.Mask.length = 4) ∨
      (subnet.IP.length = 16 ∧ subnet.Mask.length = 16)) :
    subnet.Contains [] = false := by
  have hne : subnet.IP ≠ [] := by
    intro h0; rw [h0] at h; simp at h
  unfold IPNet.Contains networkNumberAndMask To4
  rcases h with ⟨hi, hm⟩ | ⟨hi, hm⟩
  · simp [hi, hm, hne]
  · simp only [hi, hm]
    simp
    split <;> simp_all

theorem objectNet_lengths (a : FirewallAddressResult) (subnet : IPNet)
    (h : objectNet a = some subnet) :
    (subnet.IP.length = 4 ∧ subnet.Mask.length = 4) ∨
      (subnet.IP.length = 16 ∧ subnet.Mask.length = 16) := by
  unfold objectNet at h
  split at h
  · split at h
    · simp at h
    · rename_i cidr _
      cases hp : ParseCIDR cidr with
      | none => simp [hp] at h
      | some r =>
        obtain ⟨ip, net⟩ := r
        simp only [hp, Option.map_some', Option.some.injEq] at h
        subst h
        exact ParseCIDR_lengths _ _ _ hp
  · simp at h

theorem containsIP_nil (a : FirewallAddressResult) : containsIP [] a = false := by
  unfold containsIP
  cases h : objectNet a with
  | none => rfl
  | some subnet => exact Contains_nil subnet (objectNet_lengths a subnet h)

theorem sessions_dropUnparseable (userFirewalls : List UserFirewall) :
    sessions (dropUnparseable userFirewalls) =
      (sessions userFirewalls).filter (fun r => decide (ParseIP r.IPAddr ≠ [])) := by
  induction userFirewalls with
  | nil => rfl
  | cons fw rest ih =>
    unfold dropUnparseable at ih ⊢
    simp only [sessions, List.map_cons, List.flatMap_cons, List.filter_append] at ih ⊢
    rw [ih]

/-- C10: `findLongestPrefixMatch` on the nil IP (the result of `net.ParseIP` on
an unparseable `IPAddr`) is empty for every address collection, and the
aggregate over a session list is the aggregate over the same list without the
sessions whose `IPAddr` does not parse. -/
theorem unparseable_session_skipped (userFirewalls : List UserFirewall)
    (addresses : FirewallAddresses) :
    findLongestPrefixMatch [] addresses = [] ∧
      subnetUserCounts (dropUnparseable userFirewalls) addresses =
        subnetUserCounts userFirewalls addresses := by
  have h0 : findLongestPrefixMatch [] addresses = [] :=
    findLongestPrefixMatch_nil_of_none [] addresses (fun e _ => containsIP_nil e.Address)
  refine ⟨h0, ?_⟩
  unfold subnetUserCounts
  rw [foldl_sessions, foldl_sessions, sessions_dropUnparseable, foldl_filter_of_id]
  intro counts r hr
  have hnil : ParseIP r.IPAddr = [] := by simpa using hr
  simp [countSession, hnil, h0]

/-! ### The catch-all subnet -/

/-- C3, counterexample: in a collection whose only object is the catch-all
`0.0.0.0 0.0.0.0`, exactly one well-formed object contains 10.0.0.5, it has
prefix length 0, and it is returned alone. -/
theorem standalone_zero_counterexample :
    (entries catchAllAddresses).filter
        (fun e => containsIP (ParseIP "10.0.0.5") e.Address) = [catchAllMatch] ∧
      prefixLen catchAllMatch.Address = 0 ∧
      findLongestPrefixMatch (ParseIP "10.0.0.5") catchAllAddresses = [catchAllMatch] ∧
      findLongestPrefixMatch (ParseIP "10.0.0.5") catchAllAddresses ≠ [] := by
  decide

/-- C3, amended: when exactly one well-formed object contains the IP and it has
prefix length 0, `findLongestPrefixMatch` returns exactly that object; and when
an object of prefix length 0 is returned, every returned object has prefix
length 0. -/
theorem standalone_zero_returned (x : List Nat) (addresses : FirewallAddresses) :
    (∀ m : SubnetMatch,
      (entries addresses).filter (fun e => containsIP x e.Address) = [m] →
        prefixLen m.Address = 0 → findLongestPrefixMatch x addresses = [m]) ∧
    (∀ a ∈ findLongestPrefixMatch x addresses, ∀ b ∈ findLongestPrefixMatch x addresses,
      prefixLen a.Address = 0 → prefixLen b.Address = 0) := by
  constructor
  · intro m h1 _
    have hsplit : (entries addresses).filter (fun m => containsIP x m.Address &&
        decide (∀ e ∈ entries addresses, containsIP x e.Address = true →
          prefixLen e.Address ≤ prefixLen m.Address)) =
        ((entries addresses).filter (fun e => containsIP x e.Address)).filter
          (fun m => decide (∀ e ∈ entries addresses, containsIP x e.Address = true →
            prefixLen e.Address ≤ prefixLen m.Address)) := by
      rw [List.filter_filter]
      apply List.filter_congr
      intro a _
      exact Bool.and_comm _ _
    rw [findLongestPrefixMatch_filter, hsplit, h1]
    have hall : ∀ e ∈ entries addresses, containsIP x e.Address = true →
        prefixLen e.Address ≤ prefixLen m.Address := by
      intro e he hec
      have hmem : e ∈ (entries addresses).filter (fun e => containsIP x e.Address) :=
        List.mem_filter.2 ⟨he, hec⟩
      rw [h1] at hmem
      rw [List.mem_singleton.1 hmem]
    rw [List.filter_cons, List.filter_nil, if_pos (decide_eq_true hall)]
  · intro a ha b hb h0
    have h1 := (mem_findLongestPrefixMatch x addresses a).1 ha
    have h2 := (mem_findLongestPrefixMatch x addresses b).1 hb
    have := h1.2.2 b h2.1 h2.2.1
    omega

/-- Witness of the amended C3: the catch-all object alone is returned for
10.0.0.5. -/
theorem standalone_zero_returned_witness :
    findLongestPrefixMatch (ParseIP "10.0.0.5") catchAllAddresses = [catchAllMatch] :=
  (standalone_zero_returned (ParseIP "10.0.0.5") catchAllAddresses).1 catchAllMatch
    (by decide) (by decide)

/-! ### `ipNetToCIDR` -/

theorem firstSeparator_of_parseIPv4Loop (s : List Char) (a d : Bool) (v p dl : Nat)
    (fields r : List Nat) (h : parseIPv4Loop s a d v p dl fields = some r) (hp : p < 3) :
    firstSeparator s = some '.' := by
  induction s generalizing a d v p dl fields with
  | nil => simp [parseIPv4Loop, hp] at h
  | cons c rest ih =>
    simp only [parseIPv4Loop] at h
    split at h
    · rename_i hdig
      have h1 : c ≠ '.' := by rintro rfl; exact absurd hdig (by decide)
      have h2 : c ≠ ':' := by rintro rfl; exact absurd hdig (by decide)
      have h3 : c ≠ '%' := by rintro rfl; exact absurd hdig (by decide)
      split at h
      · simp at h
      · split at h
        · simp at h
        · simp only [firstSeparator, h1, h2, h3, or_self, if_false]
          exact ih _ _ _ _ _ _ h hp
    · split at h
      · rename_i hdot
        simp [firstSeparator, hdot]
      · simp at h

theorem ParseAddr_of_parseIPv4 (s : String) (a : Addr) (h : parseIPv4 s.data = some a) :
    ParseAddr s = some a := by
  obtain ⟨fields, _, _, hf⟩ := parseIPv4_some _ _ h
  have hsep := firstSeparator_of_parseIPv4Loop _ _ _ _ _ _ _ _ hf (by decide)
  simp [ParseAddr, hsep, h]

theorem ParseIP_of_parsesAsIPv4 (s : String) (h : parsesAsIPv4 s = true) :
    ∃ fields, fields.length = 4 ∧ parseIPv4Fields s.data [0, 0, 0, 0] = some fields ∧
      ParseIP s = v4InV6Prefix ++ fields := by
  unfold parsesAsIPv4 at h
  obtain ⟨a, ha⟩ := Option.isSome_iff_exists.1 h
  obtain ⟨fields, hl, hb, hf⟩ := parseIPv4_some _ _ ha
  refine ⟨fields, hl, hf, ?_⟩
  simp [ParseIP, ParseAddr_of_parseIPv4 s a ha, hb]

/-- C8, counterexample: `::1` and `2001:db8::` are not IPv4 dotted quads, yet
`ipNetToCIDR` accepts them as address, and accepts the IPv6 text `ffff::` as
mask. -/
theorem ipNetToCIDR_ipv6_counterexample :
    parsesAsIPv4 "::1" = false ∧
      ipNetToCIDR "::1" "255.255.255.0" = Except.ok "::1/24" ∧
      parsesAsIPv4 "2001:db8::" = false ∧
      ipNetToCIDR "2001:db8::" "255.255.0.0" = Except.ok "2001:db8::/16" ∧
      parsesAsIPv4 "ffff::" = false ∧
      ipNetToCIDR "10.0.0.1" "ffff::" = Except.ok "10.0.0.1/0" := by
  refine ⟨by decide, by rfl, by decide, by rfl, by decide, by rfl⟩

/-- C8, amended: `ipNetToCIDR` returns an error exactly when `net.ParseIP`
rejects the address or the mask, that is when one of them is neither the text
of an IPv4 nor of an IPv6 address; it succeeds whenever both are valid IPv4
dotted quads. -/
theorem ipNetToCIDR_error_iff (address mask : String) :
    ((∃ e, ipNetToCIDR address mask = Except.error e) ↔
        (ParseIP address = [] ∨ ParseIP mask = [])) ∧
      (parsesAsIPv4 address = true → parsesAsIPv4 mask = true →
        ∃ cidr, ipNetToCIDR address mask = Except.ok cidr) := by
  constructor
  · unfold ipNetToCIDR
    by_cases h0 : ParseIP address = []
    · simp [h0]
    · by_cases h1 : ParseIP mask = []
      · simp [h0, h1]
      · simp [h0, h1]
  · intro ha hm
    obtain ⟨fa, _, _, hpa⟩ := ParseIP_of_parsesAsIPv4 address ha
    obtain ⟨fm, _, _, hpm⟩ := ParseIP_of_parsesAsIPv4 mask hm
    unfold ipNetToCIDR
    simp [hpa, hpm, v4InV6Prefix]

/-- Witness of the amended C8: two IPv4 dotted quads are accepted. -/
theorem ipNetToCIDR_error_iff_witness :
    ∃ cidr, ipNetToCIDR "10.0.0.0" "255.255.255.0" = Except.ok cidr :=
  (ipNetToCIDR_error_iff "10.0.0.0" "255.255.255.0").2 (by decide) (by decide)

/-! ### The prefix length written by `ipNetToCIDR` -/

theorem countLeadingOnes_shift (k v n : Nat) :
    countLeadingOnes k v n = ((countLeadingOnes k v 0).1, n + (countLeadingOnes k v 0).2) := by
  induction k generalizing v n with
  | zero => simp [countLeadingOnes]
  | succ k ih =>
    unfold countLeadingOnes
    split
    · rw [ih _ (n + 1), ih _ (0 + 1)]
      simp only [Prod.mk.injEq, true_and]
      omega
    · simp

set_option maxRecDepth 100000 in
theorem byte_facts : ∀ v < 256,
    (countLeadingOnes 8 v 0).2 = leadingOnes (byteBits v) ∧
    (decide ((countLeadingOnes 8 v 0).1 = 0) = onesThenZeros (byteBits v)) ∧
    (decide (v = 0) = (byteBits v).all (fun b => !b)) ∧
    (v ≠ 255 → false ∈ byteBits v) := by
  decide

theorem takeWhile_append_of_false (bb rest : List Bool) (h : false ∈ bb) :
    (bb ++ rest).takeWhile id = bb.takeWhile id ∧
      (bb ++ rest).dropWhile id = bb.dropWhile id ++ rest := by
  induction bb with
  | nil => simp at h
  | cons b tl ih =>
    cases b with
    | false => simp [List.takeWhile, List.dropWhile]
    | true =>
      have h' : false ∈ tl := by simpa using h
      simp [List.takeWhile, List.dropWhile, ih h']

theorem maskBits_all_zero (m : List Nat) (hb : ∀ b ∈ m, b < 256) :
    m.all (fun b => decide (b = 0)) = (maskBits m).all (fun b => !b) := by
  induction m with
  | nil => rfl
  | cons v rest ih =>
    have hv := (byte_facts v (hb v (by simp))).2.2.1
    have ih' := ih (fun b h => hb b (by simp [h]))
    simp only [maskBits, List.flatMap_cons, List.all_cons, List.all_append] at ih' ⊢
    rw [ih', hv]

theorem simpleMaskLength_spec (m : List Nat) (hb : ∀ b ∈ m, b < 256) (n : Nat) :
    simpleMaskLength m n =
      if onesThenZeros (maskBits m) = true then some (n + leadingOnes (maskBits m))
      else none := by
  induction m generalizing n with
  | nil => simp [simpleMaskLength, onesThenZeros, maskBits, leadingOnes]
  | cons v rest ih =>
    have hrest : ∀ b ∈ rest, b < 256 := fun b h => hb b (by simp [h])
    have hv : v < 256 := hb v (by simp)
    unfold simpleMaskLength
    by_cases h255 : v = 255
    · subst h255
      rw [if_pos rfl, ih hrest]
      have hbb : byteBits 255 = [true, true, true, true, true, true, true, true] := by decide
      have hbits : maskBits (255 :: rest) =
          [true, true, true, true, true, true, true, true] ++ maskBits rest := by
        unfold maskBits
        rw [List.flatMap_cons, hbb]
      have hl : leadingOnes (maskBits (255 :: rest)) = leadingOnes (maskBits rest) + 8 := by
        rw [hbits]
        simp [leadingOnes, List.takeWhile_cons]
      have ho : onesThenZeros (maskBits (255 :: rest)) = onesThenZeros (maskBits rest) := by
        rw [hbits]
        simp [onesThenZeros, List.dropWhile_cons]
      rw [hl, ho]
      split
      · simp only [Option.some.injEq]; omega
      · rfl
    · rw [if_neg h255]
      obtain ⟨f1, f2, _, f4⟩ := byte_facts v hv
      have hfalse := f4 h255
      obtain ⟨ht, hd⟩ := takeWhile_append_of_false (byteBits v) (maskBits rest) hfalse
      have hbits : maskBits (v :: rest) = byteBits v ++ maskBits rest := by
        simp [maskBits]
      rw [countLeadingOnes_shift]
      simp only [hbits, onesThenZeros, leadingOnes, ht, hd, List.all_append, f1]
      rw [maskBits_all_zero rest hrest]
      have f2' : ((countLeadingOnes 8 v 0).1 = 0) ↔
          ((byteBits v).dropWhile id).all (fun b => !b) = true := by
        have h3 : onesThenZeros (byteBits v) = true ↔
            ((byteBits v).dropWhile id).all (fun b => !b) = true := Iff.rfl
        rw [← h3, ← f2, decide_eq_true_eq]
      by_cases hz : (countLeadingOnes 8 v 0).1 = 0
      · have := f2'.1 hz
        simp [hz, this]
      · have : ¬ ((byteBits v).dropWhile id).all (fun b => !b) = true := fun h => hz (f2'.2 h)
        simp [hz, this]

theorem parseIPv4Loop_bytes (s : List Char) (a d : Bool) (v p dl : Nat) (fields r : List Nat)
    (h : parseIPv4Loop s a d v p dl fields = some r) (hv : v < 256)
    (hf : ∀ b ∈ fields, b < 256) : ∀ b ∈ r, b < 256 := by
  induction s generalizing a d v p dl fields with
  | nil =>
    simp only [parseIPv4Loop] at h
    split at h
    · simp at h
    · simp only [Option.some.injEq] at h
      intro b hb
      rw [← h] at hb
      rcases List.mem_or_eq_of_mem_set hb with h1 | h1
      · exact hf b h1
      · rw [h1]; exact hv
  | cons c rest ih =>
    simp only [parseIPv4Loop] at h
    split at h
    · split at h
      · simp at h
      · split at h
        · simp at h
        · rename_i hle
          exact ih _ _ _ _ _ _ h (by omega) hf
    · split at h
      · split at h
        · simp at h
        · split at h
          · simp at h
          · refine ih _ _ _ _ _ _ h (by decide) ?_
            intro b hb
            rcases List.mem_or_eq_of_mem_set hb with h1 | h1
            · exact hf b h1
            · rw [h1]; exact hv
      · simp at h

theorem To4_v4 (fields : List Nat) (hl : fields.length = 4) :
    To4 (v4InV6Prefix ++ fields) = fields := by
  unfold To4
  simp [v4InV6Prefix, hl]

theorem IPMask_Size_spec (m : List Nat) (hb : ∀ b ∈ m, b < 256) :
    (IPMask_Size m).1 =
      if onesThenZeros (maskBits m) = true then leadingOnes (maskBits m) else 0 := by
  unfold IPMask_Size
  rw [simpleMaskLength_spec m hb 0]
  by_cases h : onesThenZeros (maskBits m) = true
  · simp [h]
  · simp [h]

/-- C4, counterexample: for the mask 255.0.255.0, whose 4-byte form has 8
leading one-bits, `ipNetToCIDR` writes the prefix length 0. -/
theorem ipNetToCIDR_noncontiguous_counterexample :
    parsesAsIPv4 "10.0.0.0" = true ∧ parsesAsIPv4 "255.0.255.0" = true ∧
      To4 (ParseIP "255.0.255.0") = [255, 0, 255, 0] ∧
      leadingOnes (maskBits (To4 (ParseIP "255.0.255.0"))) = 8 ∧
      ipNetToCIDR "10.0.0.0" "255.0.255.0" = Except.ok "10.0.0.0/0" ∧
      ipNetToCIDR "10.0.0.0" "255.0.255.0" ≠ Except.ok "10.0.0.0/8" := by
  refine ⟨by decide, by decide, by decide, by decide, by rfl, ?_⟩
  intro h
  have h2 : ipNetToCIDR "10.0.0.0" "255.0.255.0" = Except.ok "10.0.0.0/0" := by rfl
  rw [h2] at h
  exact absurd (Except.ok.inj h) (by decide)

/-- C4, amended: for an address and a mask that are both valid IPv4 dotted
quads, `ipNetToCIDR` succeeds, and the prefix length it writes after the `/`
is the number of leading one-bits of the mask's 4-byte form when the mask is
made of ones followed by zeros, and 0 for any other mask. -/
theorem ipNetToCIDR_ones (address mask : String)
    (ha : parsesAsIPv4 address = true) (hm : parsesAsIPv4 mask = true) :
    (To4 (ParseIP mask)).length = 4 ∧
      ipNetToCIDR address mask = Except.ok (address ++ "/" ++ toString
        (if onesThenZeros (maskBits (To4 (ParseIP mask))) = true
          then leadingOnes (maskBits (To4 (ParseIP mask))) else 0)) := by
  obtain ⟨fa, hla, _, hpa⟩ := ParseIP_of_parsesAsIPv4 address ha
  obtain ⟨fm, hlm, hfm, hpm⟩ := ParseIP_of_parsesAsIPv4 mask hm
  have hbytes : ∀ b ∈ fm, b < 256 :=
    parseIPv4Loop_bytes _ _ _ _ _ _ _ _ hfm (by decide) (by decide)
  have h4 : To4 (ParseIP mask) = fm := by rw [hpm]; exact To4_v4 fm hlm
  refine ⟨by rw [h4]; exact hlm, ?_⟩
  have hne1 : ParseIP address ≠ [] := by rw [hpa]; simp [v4InV6Prefix]
  have hne2 : ParseIP mask ≠ [] := by rw [hpm]; simp [v4InV6Prefix]
  unfold ipNetToCIDR
  simp only [hne1, hne2, if_false, sprintfCIDR]
  rw [h4, IPMask_Size_spec fm hbytes]

/-- Witness of the amended C4: address 10.0.0.0 with the mask 255.255.254.0
gives `10.0.0.0/23`. -/
theorem ipNetToCIDR_ones_witness :
    ipNetToCIDR "10.0.0.0" "255.255.254.0" = Except.ok "10.0.0.0/23" :=
  (ipNetToCIDR_ones "10.0.0.0" "255.255.254.0" (by decide) (by decide)).2

/-! ### Round trip through `ipNetToCIDR` and `net.ParseCIDR` -/

theorem parseIPv4Loop_chars (s : List Char) (a d : Bool) (v p dl : Nat) (fields r : List Nat)
    (h : parseIPv4Loop s a d v p dl fields = some r) :
    ∀ c ∈ s, ('0' ≤ c ∧ c ≤ '9') ∨ c = '.' := by
  induction s generalizing a d v p dl fields with
  | nil => simp
  | cons c rest ih =>
    simp only [parseIPv4Loop] at h
    split at h
    · rename_i hdig
      split at h
      · simp at h
      · split at h
        · simp at h
        · intro c' hc'
          rcases List.mem_cons.1 hc' with h1 | h1
          · left; rw [h1]; exact hdig
          · exact ih _ _ _ _ _ _ h c' h1
    · split at h
      · rename_i hdot
        split at h
        · simp at h
        · split at h
          · simp at h
          · intro c' hc'
            rcases List.mem_cons.1 hc' with h1 | h1
            · right; rw [h1]; exact hdot
            · exact ih _ _ _ _ _ _ h c' h1
      · simp at h

theorem parsesAsIPv4_chars (s : String) (h : parsesAsIPv4 s = true) :
    '/' ∉ s.data ∧ ' ' ∉ s.data := by
  obtain ⟨fields, _, hf, _⟩ := ParseIP_of_parsesAsIPv4 s h
  have hc := parseIPv4Loop_chars _ _ _ _ _ _ _ _ hf
  constructor
  · intro hm
    rcases hc _ hm with h1 | h1
    · exact absurd h1 (by decide)
    · exact absurd h1 (by decide)
  · intro hm
    rcases hc _ hm with h1 | h1
    · exact absurd h1 (by decide)
    · exact absurd h1 (by decide)

theorem takeWhile_append_stop (p : Char → Bool) (sep : Char) (l r : List Char)
    (hs : p sep = false) (h : ∀ c ∈ l, p c = true) :
    (l ++ sep :: r).takeWhile p = l := by
  induction l with
  | nil => simp [List.takeWhile, hs]
  | cons c rest ih =>
    have h1 : p c = true := h c (by simp)
    have h2 : ∀ c ∈ rest, p c = true := fun c' hc' => h c' (by simp [hc'])
    rw [List.cons_append, List.takeWhile_cons, h1, ih h2]
    rfl

theorem splitChars_of_not_mem (sep : Char) (l : List Char) (h : sep ∉ l) :
    splitChars sep l = [l] := by
  induction l with
  | nil => rfl
  | cons c rest ih =>
    have h1 : c ≠ sep := fun e => h (by simp [e])
    have h2 : sep ∉ rest := fun e => h (by simp [e])
    simp [splitChars, h1, ih h2]

theorem splitChars_append (sep : Char) (l r : List Char) (h : sep ∉ l) :
    splitChars sep (l ++ sep :: r) = l :: splitChars sep r := by
  induction l with
  | nil => simp [splitChars]
  | cons c rest ih =>
    have h1 : c ≠ sep := fun e => h (by simp [e])
    have h2 : sep ∉ rest := fun e => h (by simp [e])
    simp [splitChars, h1, ih h2]

theorem stringsSplit_pair (a mask : String) (ha : ' ' ∉ a.data) (hm : ' ' ∉ mask.data) :
    stringsSplit (a ++ " " ++ mask) ' ' = [a, mask] := by
  unfold stringsSplit
  have hd : (a ++ " " ++ mask).data = a.data ++ ' ' :: mask.data := by
    simp [String.data_append]
  rw [hd, splitChars_append _ _ _ ha, splitChars_of_not_mem _ _ hm]
  rfl

set_option maxRecDepth 100000 in
theorem dtoi_toString : ∀ n ≤ 32,
    dtoi (toString n).data = (n, (toString n).data.length, true) := by
  decide

theorem IP_Mask_v4 (fields m : List Nat) (hl : fields.length = 4) (hm : m.length = 4) :
    IP_Mask (v4InV6Prefix ++ fields) m = List.zipWith (fun a b => a &&& b) fields m := by
  unfold IP_Mask
  simp [v4InV6Prefix, hl, hm]

theorem ParseAddr_ipv4 (a : String) (ha : parsesAsIPv4 a = true) :
    ∃ fa, fa.length = 4 ∧ (∀ b ∈ fa, b < 256) ∧ ParseIP a = v4InV6Prefix ++ fa ∧
      To4 (ParseIP a) = fa ∧
      ParseAddr a = some { bytes := v4InV6Prefix ++ fa, is4 := true, zone := "" } := by
  unfold parsesAsIPv4 at ha
  obtain ⟨ad, had⟩ := Option.isSome_iff_exists.1 ha
  obtain ⟨fa, hl, hb, hf⟩ := parseIPv4_some _ _ had
  have hbytes : ∀ b ∈ fa, b < 256 :=
    parseIPv4Loop_bytes _ _ _ _ _ _ _ _ hf (by decide) (by decide)
  have hA := ParseAddr_of_parseIPv4 a ad had
  rw [hb] at hA
  have hP : ParseIP a = v4InV6Prefix ++ fa := by simp [ParseIP, hA]
  exact ⟨fa, hl, hbytes, hP, by rw [hP]; exact To4_v4 fa hl, hA⟩

theorem ParseCIDR_ipv4 (a : String) (n : Nat) (ha : parsesAsIPv4 a = true) (hn : n ≤ 32) :
    ParseCIDR (a ++ "/" ++ toString n) =
      some (ParseIP a,
        { IP := List.zipWith (fun x y => x &&& y) (To4 (ParseIP a)) (CIDRMask n 32),
          Mask := CIDRMask n 32 }) := by
  obtain ⟨fa, hl, _, hP, h4, hA⟩ := ParseAddr_ipv4 a ha
  have hslash := (parsesAsIPv4_chars a ha).1
  have hd : (a ++ "/" ++ toString n).data = a.data ++ '/' :: (toString n).data := by
    simp [String.data_append]
  have htw : (a.data ++ '/' :: (toString n).data).takeWhile (fun c => decide (c ≠ '/')) =
      a.data := by
    apply takeWhile_append_stop
    · simp
    · intro c hc
      have : c ≠ '/' := fun e => hslash (e ▸ hc)
      simp [this]
  have hmk : (⟨a.data⟩ : String) = a := rfl
  have hdrop : (a.data ++ '/' :: (toString n).data).drop (a.data.length + 1) =
      (toString n).data := by
    rw [show a.data ++ '/' :: (toString n).data = (a.data ++ ['/']) ++ (toString n).data by simp]
    exact List.drop_left' (by simp)
  have hlen : a.data.length < (a.data ++ '/' :: (toString n).data).length := by simp
  have hm4 : (CIDRMask n 32).length = 4 := CIDRMask_length n 32 (Or.inl rfl) hn
  unfold ParseCIDR
  simp only [hd, htw, hdrop, hmk, hA, dtoi_toString n hn, not_lt]
  rw [if_neg (by omega)]
  simp only [ne_eq, not_true_eq_false, if_false, if_true, Bool.not_eq_true]
  rw [if_neg (by simp; omega), IP_Mask_v4 fa _ hl hm4, h4, hP]

theorem ipNetToCIDR_of_ipv4 (address mask : String)
    (ha : parsesAsIPv4 address = true) (hm : parsesAsIPv4 mask = true) :
    ipNetToCIDR address mask = Except.ok (address ++ "/" ++ toString
      (if onesThenZeros (maskBits (To4 (ParseIP mask))) = true
        then leadingOnes (maskBits (To4 (ParseIP mask))) else 0)) := by
  obtain ⟨fa, hla, _, hpa, _, _⟩ := ParseAddr_ipv4 address ha
  obtain ⟨fm, hlm, hbytes, hpm, h4, _⟩ := ParseAddr_ipv4 mask hm
  have hne1 : ParseIP address ≠ [] := by rw [hpa]; simp [v4InV6Prefix]
  have hne2 : ParseIP mask ≠ [] := by rw [hpm]; simp [v4InV6Prefix]
  unfold ipNetToCIDR
  simp only [hne1, hne2, if_false, sprintfCIDR]
  rw [h4, IPMask_Size_spec fm hbytes]

theorem takeWhile_replicate_true (n : Nat) (rest : List Bool) :
    (List.replicate n true ++ rest).takeWhile id = List.replicate n true ++ rest.takeWhile id ∧
      (List.replicate n true ++ rest).dropWhile id = rest.dropWhile id := by
  induction n with
  | zero => simp
  | succ n ih => simp [List.replicate_succ, List.takeWhile_cons, List.dropWhile_cons, ih]

theorem replicate_false_facts (k : Nat) :
    (List.replicate k false).takeWhile id = [] ∧
      (List.replicate k false).dropWhile id = List.replicate k false := by
  cases k with
  | zero => simp
  | succ k => simp [List.replicate_succ, List.takeWhile_cons, List.dropWhile_cons]

theorem prefixBits_facts (n : Nat) :
    leadingOnes (prefixBits n) = n ∧ onesThenZeros (prefixBits n) = true := by
  unfold leadingOnes onesThenZeros prefixBits
  rw [(takeWhile_replicate_true n _).1, (takeWhile_replicate_true n _).2,
    (replicate_false_facts _).1, (replicate_false_facts _).2]
  simp

theorem byteBits_and (x m : Nat) :
    byteBits (x &&& m) = List.zipWith (fun a b => a && b) (byteBits x) (byteBits m) := by
  simp [byteBits, Nat.testBit_land]

theorem byteBits_length (v : Nat) : (byteBits v).length = 8 := rfl

theorem maskBits_length (l : List Nat) : (maskBits l).length = 8 * l.length := by
  induction l with
  | nil => rfl
  | cons v rest ih =>
    have : maskBits (v :: rest) = byteBits v ++ maskBits rest := by simp [maskBits]
    rw [this, List.length_append, ih, byteBits_length, List.length_cons]
    omega

theorem maskBits_zipWith (la lm : List Nat) (h : la.length = lm.length) :
    maskBits (List.zipWith (fun a b => a &&& b) la lm) =
      List.zipWith (fun a b => a && b) (maskBits la) (maskBits lm) := by
  induction la generalizing lm with
  | nil => simp [maskBits]
  | cons a ra ih =>
    cases lm with
    | nil => simp at h
    | cons m rm =>
      have hr : ra.length = rm.length := by simpa using h
      have e1 : maskBits (a :: ra) = byteBits a ++ maskBits ra := by simp [maskBits]
      have e2 : maskBits (m :: rm) = byteBits m ++ maskBits rm := by simp [maskBits]
      have e3 : maskBits ((a &&& m) :: List.zipWith (fun a b => a &&& b) ra rm) =
          byteBits (a &&& m) ++ maskBits (List.zipWith (fun a b => a &&& b) ra rm) := by
        simp [maskBits]
      rw [List.zipWith_cons_cons, e1, e2, e3, ih rm hr, byteBits_and,
        List.zipWith_append _ _ _ _ _ (by simp [byteBits_length])]

theorem zipWith_and_prefix (bits : List Bool) (n k : Nat) (h : bits.length = n + k) :
    List.zipWith (fun a b => a && b) bits (List.replicate n true ++ List.replicate k false) =
      bits.take n ++ List.replicate k false := by
  induction n generalizing bits with
  | zero =>
    simp only [List.replicate_zero, List.nil_append, List.take_zero]
    induction k generalizing bits with
    | zero => simp
    | succ k ih =>
      cases bits with
      | nil => simp at h
      | cons b rest =>
        simp only [List.replicate_succ, List.zipWith_cons_cons, Bool.and_false]
        rw [ih rest (by simpa using h)]
  | succ n ih =>
    cases bits with
    | nil => simp at h; omega
    | cons b rest =>
      simp only [List.replicate_succ, List.cons_append, List.zipWith_cons_cons, Bool.and_true,
        List.take_succ_cons]
      rw [ih rest (by simp at h; omega)]

set_option maxRecDepth 100000 in
theorem CIDRMask_facts : ∀ n ≤ 32,
    maskBits (CIDRMask n 32) = prefixBits n ∧ (IPMask_Size (CIDRMask n 32)).1 = n ∧
      (∀ b ∈ CIDRMask n 32, b < 256) := by
  decide

theorem network_bits (fa : List Nat) (n : Nat) (hl : fa.length = 4) (hn : n ≤ 32) :
    maskBits (List.zipWith (fun x y => x &&& y) fa (CIDRMask n 32)) =
      (maskBits fa).take n ++ List.replicate (32 - n) false := by
  have hm4 : (CIDRMask n 32).length = 4 := CIDRMask_length n 32 (Or.inl rfl) hn
  rw [maskBits_zipWith fa _ (by rw [hl, hm4]), (CIDRMask_facts n hn).1]
  exact zipWith_and_prefix _ _ _ (by rw [maskBits_length, hl]; omega)

/-- C11: for a valid IPv4 dotted quad `a` and a dotted-quad mask whose 32 bits
are `n` ones followed by zeros, `ipNetToCIDR` succeeds with `a`, a `/` and the
decimal `n`; `net.ParseCIDR` accepts that text, and the parsed subnet has
prefix length `n` and as network address the 4 bytes of `a` with every bit
after the first `n` cleared. -/
theorem ipNetToCIDR_round_trip (a mask : String) (n : Nat)
    (ha : parsesAsIPv4 a = true) (hm : parsesAsIPv4 mask = true) (hn : n ≤ 32)
    (hbits : maskBits (To4 (ParseIP mask)) = prefixBits n) :
    ipNetToCIDR a mask = Except.ok (a ++ "/" ++ toString n) ∧
      ∃ subnet, ParseCIDR (a ++ "/" ++ toString n) = some (ParseIP a, subnet) ∧
        (IPMask_Size subnet.Mask).1 = n ∧ subnet.IP.length = 4 ∧
        maskBits subnet.IP =
          (maskBits (To4 (ParseIP a))).take n ++ List.replicate (32 - n) false := by
  obtain ⟨fa, hl, _, _, h4, _⟩ := ParseAddr_ipv4 a ha
  have hm4 : (CIDRMask n 32).length = 4 := CIDRMask_length n 32 (Or.inl rfl) hn
  constructor
  · rw [ipNetToCIDR_of_ipv4 a mask ha hm, hbits, (prefixBits_facts n).1,
      (prefixBits_facts n).2, if_pos rfl]
  · refine ⟨_, ParseCIDR_ipv4 a n ha hn, (CIDRMask_facts n hn).2.1, ?_, ?_⟩
    · simp [h4, hl, hm4]
    · rw [h4]
      exact network_bits fa n hl hn

/-- Witness of C11: `10.0.0.0` with `255.255.255.0` gives `10.0.0.0/24`,
network 10.0.0.0, prefix length 24. -/
theorem ipNetToCIDR_round_trip_witness :
    ipNetToCIDR "10.0.0.0" "255.255.255.0" = Except.ok "10.0.0.0/24" ∧
      (ParseCIDR "10.0.0.0/24").map (fun r => r.2) =
        some { IP := [10, 0, 0, 0], Mask := [255, 255, 255, 0] } ∧
      (IPMask_Size [255, 255, 255, 0]).1 = 24 :=
  ⟨(ipNetToCIDR_round_trip "10.0.0.0" "255.255.255.0" 24 (by decide) (by decide) (by decide)
    (by decide)).1, by decide, by decide⟩

/-! ### Ties across VDOMs -/

theorem getCount_subnetUserCounts (userFirewalls : List UserFirewall)
    (addresses : FirewallAddresses) (vdom name : String) :
    getCount (subnetUserCounts userFirewalls addresses) vdom name =
      ((sessions userFirewalls).map (fun r =>
        (findLongestPrefixMatch (ParseIP r.IPAddr) addresses).countP
          (fun m => decide (m.VDOM = vdom ∧ m.Address.Name = name)))).sum := by
  unfold subnetUserCounts
  rw [foldl_sessions, getCount_foldl_countSession]
  simp [getCount, mapGet]

theorem subnetUserCounts_single (userFirewalls : List UserFirewall)
    (addresses : FirewallAddresses) (r : UserFirewallResult)
    (h : sessions userFirewalls = [r]) :
    subnetUserCounts userFirewalls addresses =
      (findLongestPrefixMatch (ParseIP r.IPAddr) addresses).foldl countMatch [] := by
  unfold subnetUserCounts
  rw [foldl_sessions, h]
  rfl

/-- C12: with a single session of IP `x`, a well-formed object `A` in VDOM `v1`
and a well-formed object `B` in another VDOM `v2`, both of prefix length 24,
both containing `x`, and no containing object of longer prefix, both objects
are returned and the counters `(v1, A.Name)` and `(v2, B.Name)` are at least 1;
when no other object contains `x`, the aggregate consists of exactly the two
counters `(v1, A.Name) : 1` and `(v2, B.Name) : 1`, in the order in which the
two objects are met. -/
theorem cross_vdom_tie (userFirewalls : List UserFirewall) (addresses : FirewallAddresses)
    (r : UserFirewallResult) (A B : FirewallAddressResult) (v1 v2 : String)
    (hs : sessions userFirewalls = [r])
    (hA : ({ Address := A, VDOM := v1 } : SubnetMatch) ∈ entries addresses)
    (hB : ({ Address := B, VDOM := v2 } : SubnetMatch) ∈ entries addresses)
    (hv : v1 ≠ v2)
    (hcA : containsIP (ParseIP r.IPAddr) A = true) (hcB : containsIP (ParseIP r.IPAddr) B = true)
    (hpA : prefixLen A = 24) (hpB : prefixLen B = 24)
    (hmax : ∀ e ∈ entries addresses, containsIP (ParseIP r.IPAddr) e.Address = true →
      prefixLen e.Address ≤ 24) :
    (1 ≤ getCount (subnetUserCounts userFirewalls addresses) v1 A.Name ∧
      1 ≤ getCount (subnetUserCounts userFirewalls addresses) v2 B.Name) ∧
    (((entries addresses).filter (fun e => containsIP (ParseIP r.IPAddr) e.Address) =
        [{ Address := A, VDOM := v1 }, { Address := B, VDOM := v2 }] →
      subnetUserCounts userFirewalls addresses = [(v1, [(A.Name, 1)]), (v2, [(B.Name, 1)])]) ∧
    ((entries addresses).filter (fun e => containsIP (ParseIP r.IPAddr) e.Address) =
        [{ Address := B, VDOM := v2 }, { Address := A, VDOM := v1 }] →
      subnetUserCounts userFirewalls addresses =
        [(v2, [(B.Name, 1)]), (v1, [(A.Name, 1)])])) := by
  have hmA : ({ Address := A, VDOM := v1 } : SubnetMatch) ∈
      findLongestPrefixMatch (ParseIP r.IPAddr) addresses :=
    (mem_findLongestPrefixMatch _ _ _).2 ⟨hA, hcA, fun e he hec => by
      have := hmax e he hec
      simp only [hpA]; exact this⟩
  have hmB : ({ Address := B, VDOM := v2 } : SubnetMatch) ∈
      findLongestPrefixMatch (ParseIP r.IPAddr) addresses :=
    (mem_findLongestPrefixMatch _ _ _).2 ⟨hB, hcB, fun e he hec => by
      have := hmax e he hec
      simp only [hpB]; exact this⟩
  have hfilter : ∀ l : List SubnetMatch,
      (entries addresses).filter (fun e => containsIP (ParseIP r.IPAddr) e.Address) = l →
      (∀ m ∈ l, prefixLen m.Address = 24) →
      findLongestPrefixMatch (ParseIP r.IPAddr) addresses = l := by
    intro l hl h24
    rw [findLongestPrefixMatch_filter]
    rw [← hl]
    apply List.filter_congr
    intro m hm
    by_cases hc : containsIP (ParseIP r.IPAddr) m.Address = true
    · have hml : m ∈ l := by rw [← hl]; exact List.mem_filter.2 ⟨hm, hc⟩
      have hall : ∀ e ∈ entries addresses, containsIP (ParseIP r.IPAddr) e.Address = true →
          prefixLen e.Address ≤ prefixLen m.Address := by
        intro e he hec
        rw [h24 m hml]
        exact hmax e he hec
      simp only [hc, Bool.true_and, decide_eq_true hall]
    · simp [hc]
  refine ⟨⟨?_, ?_⟩, ?_, ?_⟩
  · rw [getCount_subnetUserCounts, hs]
    simp only [List.map_cons, List.map_nil, List.sum_cons, List.sum_nil, Nat.add_zero]
    exact List.countP_pos_iff.2 ⟨_, hmA, by simp⟩
  · rw [getCount_subnetUserCounts, hs]
    simp only [List.map_cons, List.map_nil, List.sum_cons, List.sum_nil, Nat.add_zero]
    exact List.countP_pos_iff.2 ⟨_, hmB, by simp⟩
  · intro hl
    rw [subnetUserCounts_single _ _ r hs, hfilter _ hl (by simp [hpA, hpB])]
    simp [countMatch, mapGet, mapSet, hv]
  · intro hl
    rw [subnetUserCounts_single _ _ r hs, hfilter _ hl (by simp [hpA, hpB])]
    simp [countMatch, mapGet, mapSet, hv, Ne.symm hv]

/-- Witness of C12: one session at 10.0.0.5 and the /24 objects `lan` (VDOM
root) and `lan2` (VDOM guest) give the two counters `(root, lan) : 1` and
`(guest, lan2) : 1`. -/
theorem cross_vdom_tie_witness :
    subnetUserCounts scenarioSessions tieAddresses =
      [("root", [("lan", 1)]), ("guest", [("lan2", 1)])] :=
  (cross_vdom_tie scenarioSessions tieAddresses (sessionOf "10.0.0.5") lanMatch.Address
    lan2Match.Address "root" "guest" (by decide) (by decide) (by decide) (by decide)
    (by decide) (by decide) (by decide) (by decide) (by decide)).2.1 (by decide)

/-! ### Fetch failures -/

/-- C13: `probeFirewallAddress` returns no metrics and `false` exactly when the
firewall-address fetch or the user-firewall fetch fails, and the metrics of the
aggregate with `true` otherwise; when the firewall-address fetch fails the
user-firewall path is not requested; `false` never comes with metrics. -/
theorem probeFirewallAddress_outcome (c : FortiHTTP) :
    ((probeFirewallAddress c).1 = ([], false) ↔
        ((∃ e, c.firewallAddress = Except.error e) ∨ (∃ e, c.userFirewall = Except.error e))) ∧
      (∀ fa uf, c.firewallAddress = Except.ok fa → c.userFirewall = Except.ok uf →
        (probeFirewallAddress c).1 = (emitCounts (subnetUserCounts uf fa), true)) ∧
      ((∃ e, c.firewallAddress = Except.error e) →
        (probeFirewallAddress c).2 = ["/api/v2/cmdb/firewall/address"]) ∧
      ((∀ e, c.firewallAddress ≠ Except.error e) →
        (probeFirewallAddress c).2 =
          ["/api/v2/cmdb/firewall/address", "/api/v2/monitor/user/firewall"]) ∧
      ((probeFirewallAddress c).1.2 = false → (probeFirewallAddress c).1.1 = []) := by
  obtain ⟨fa, uf⟩ := c
  cases fa with
  | error e1 => simp [probeFirewallAddress]
  | ok a =>
    cases uf with
    | error e2 => simp [probeFirewallAddress, fetchUserFirewallData]
    | ok u => simp [probeFirewallAddress, fetchUserFirewallData]

/-! ### Invariants of the counter map -/

theorem mem_mapSet {β : Type} (m : List (String × β)) (k : String) (v : β) (e : String × β)
    (h : e ∈ mapSet m k v) : e ∈ m ∨ e = (k, v) := by
  induction m with
  | nil => right; simpa [mapSet] using h
  | cons x rest ih =>
    obtain ⟨k0, w⟩ := x
    by_cases h0 : k0 = k
    · simp only [mapSet, h0, if_true, List.mem_cons] at h
      rcases h with h | h
      · right; exact h
      · left; exact List.mem_cons_of_mem _ h
    · simp only [mapSet, h0, if_false, List.mem_cons] at h
      rcases h with h | h
      · left; rw [h]; exact List.mem_cons_self _ _
      · rcases ih h with h1 | h1
        · left; exact List.mem_cons_of_mem _ h1
        · right; exact h1

theorem mem_keys_mapSet {β : Type} (m : List (String × β)) (k : String) (v : β) (k' : String) :
    k' ∈ (mapSet m k v).map Prod.fst ↔ k' ∈ m.map Prod.fst ∨ k' = k := by
  induction m with
  | nil => simp [mapSet]
  | cons x rest ih =>
    obtain ⟨k0, w⟩ := x
    by_cases h0 : k0 = k
    · subst h0
      simp only [mapSet, if_true, List.map_cons, List.mem_cons]
      tauto
    · simp only [mapSet, h0, if_false, List.map_cons, List.mem_cons, ih]
      tauto

theorem nodup_keys_mapSet {β : Type} (m : List (String × β)) (k : String) (v : β)
    (h : (m.map Prod.fst).Nodup) : ((mapSet m k v).map Prod.fst).Nodup := by
  induction m with
  | nil => simp [mapSet]
  | cons x rest ih =>
    obtain ⟨k0, w⟩ := x
    simp only [List.map_cons, List.nodup_cons] at h
    by_cases h0 : k0 = k
    · subst h0
      simp only [mapSet, if_true, List.map_cons, List.nodup_cons]
      exact h
    · simp only [mapSet, h0, if_false, List.map_cons, List.nodup_cons]
      refine ⟨?_, ih h.2⟩
      rw [mem_keys_mapSet]
      rintro (h1 | h1)
      · exact h.1 h1
      · exact h0 h1

theorem mem_of_mapGet {β : Type} (m : List (String × β)) (k : String) (v : β)
    (h : mapGet m k = some v) : (k, v) ∈ m := by
  induction m with
  | nil => simp [mapGet] at h
  | cons x rest ih =>
    obtain ⟨k0, w⟩ := x
    by_cases h0 : k0 = k
    · simp only [mapGet, h0, if_true, Option.some.injEq] at h
      rw [h0, h]; exact List.mem_cons_self _ _
    · simp only [mapGet, h0, if_false] at h
      exact List.mem_cons_of_mem _ (ih h)

theorem mapGet_of_mem {β : Type} (m : List (String × β)) (k : String) (v : β)
    (hn : (m.map Prod.fst).Nodup) (h : (k, v) ∈ m) : mapGet m k = some v := by
  induction m with
  | nil => simp at h
  | cons x rest ih =>
    obtain ⟨k0, w⟩ := x
    simp only [List.map_cons, List.nodup_cons] at hn
    rcases List.mem_cons.1 h with h1 | h1
    · simp only [Prod.mk.injEq] at h1
      simp [mapGet, h1.1, h1.2]
    · have hne : k0 ≠ k := by
        intro e
        apply hn.1
        rw [e]
        exact List.mem_map.2 ⟨(k, v), h1, rfl⟩
      simp only [mapGet, hne, if_false]
      exact ih hn.2 h1

theorem mapGet_perm {β : Type} (m m' : List (String × β)) (k : String)
    (hn : (m.map Prod.fst).Nodup) (hp : List.Perm m m') : mapGet m k = mapGet m' k := by
  have hn' : (m'.map Prod.fst).Nodup := (hp.map Prod.fst).nodup_iff.1 hn
  cases h : mapGet m k with
  | some v =>
    exact (mapGet_of_mem m' k v hn' (hp.mem_iff.1 (mem_of_mapGet m k v h))).symm
  | none =>
    cases h' : mapGet m' k with
    | none => rfl
    | some v =>
      rw [mapGet_of_mem m k v hn (hp.mem_iff.2 (mem_of_mapGet m' k v h'))] at h
      exact absurd h (by simp)

theorem mem_mapSet_nodup {β : Type} (m : List (String × β)) (k : String) (v : β)
    (e : String × β) (hn : (m.map Prod.fst).Nodup) (h : e ∈ mapSet m k v) :
    e = (k, v) ∨ (e ∈ m ∧ e.1 ≠ k) := by
  induction m with
  | nil => left; simpa [mapSet] using h
  | cons x rest ih =>
    obtain ⟨k0, w⟩ := x
    simp only [List.map_cons, List.nodup_cons] at hn
    by_cases h0 : k0 = k
    · subst h0
      simp only [mapSet, if_true, List.mem_cons] at h
      rcases h with h | h
      · left; exact h
      · right
        refine ⟨List.mem_cons_of_mem _ h, ?_⟩
        intro e1
        apply hn.1
        rw [← e1]
        exact List.mem_map.2 ⟨e, h, rfl⟩
    · simp only [mapSet, h0, if_false, List.mem_cons] at h
      rcases h with h | h
      · right
        rw [h]
        exact ⟨List.mem_cons_self _ _, h0⟩
      · rcases ih hn.2 h with h1 | h1
        · left; exact h1
        · right; exact ⟨List.mem_cons_of_mem _ h1.1, h1.2⟩

theorem mapSet_ne_nil {β : Type} (m : List (String × β)) (k : String) (v : β) :
    mapSet m k v ≠ [] := by
  cases m with
  | nil => simp [mapSet]
  | cons x rest =>
    obtain ⟨k0, w⟩ := x
    by_cases h0 : k0 = k <;> simp [mapSet, h0]

theorem inner_countMatch (inner : List (String × Nat)) (name : String)
    (hn : (inner.map Prod.fst).Nodup) (h1 : ∀ f ∈ inner, 1 ≤ f.2) :
    ((mapSet inner name ((mapGet inner name).getD 0 + 1)).map Prod.fst).Nodup ∧
      mapSet inner name ((mapGet inner name).getD 0 + 1) ≠ [] ∧
      ∀ f ∈ mapSet inner name ((mapGet inner name).getD 0 + 1), 1 ≤ f.2 := by
  refine ⟨nodup_keys_mapSet _ _ _ hn, mapSet_ne_nil _ _ _, ?_⟩
  intro f hf
  rcases mem_mapSet _ _ _ _ hf with h2 | h2
  · exact h1 f h2
  · rw [h2]; simp

theorem CountsWF_countMatch (counts : Counts) (m : SubnetMatch) (h : CountsWF counts) :
    CountsWF (countMatch counts m) := by
  obtain ⟨hk, he⟩ := h
  unfold countMatch
  cases hg : mapGet counts m.VDOM with
  | none =>
    simp only [hg, if_true, mapGet_mapSet_same, Option.getD_some]
    have hk1 := nodup_keys_mapSet counts m.VDOM ([] : List (String × Nat)) hk
    refine ⟨nodup_keys_mapSet _ _ _ hk1, ?_⟩
    intro e hmem
    rcases mem_mapSet_nodup _ _ _ _ hk1 hmem with h1 | ⟨h1, h2⟩
    · rw [h1]
      exact inner_countMatch [] m.Address.Name (by simp) (by simp)
    · rcases mem_mapSet _ _ _ _ h1 with h3 | h3
      · exact he e h3
      · rw [h3] at h2
        exact absurd rfl h2
  | some inner =>
    simp only [hg, if_false, Option.getD_some, reduceCtorEq]
    refine ⟨nodup_keys_mapSet _ _ _ hk, ?_⟩
    intro e hmem
    rcases mem_mapSet _ _ _ _ hmem with h1 | h1
    · exact he e h1
    · rw [h1]
      have := he _ (mem_of_mapGet _ _ _ hg)
      exact inner_countMatch inner m.Address.Name this.1 this.2.2

theorem CountsWF_foldl_countMatch (ms : List SubnetMatch) (counts : Counts)
    (h : CountsWF counts) : CountsWF (ms.foldl countMatch counts) := by
  induction ms generalizing counts with
  | nil => exact h
  | cons m rest ih => exact ih _ (CountsWF_countMatch counts m h)

theorem CountsWF_foldl_countSession (addresses : FirewallAddresses)
    (ss : List UserFirewallResult) (counts : Counts) (h : CountsWF counts) :
    CountsWF (ss.foldl (countSession addresses) counts) := by
  induction ss generalizing counts with
  | nil => exact h
  | cons r rest ih => exact ih _ (CountsWF_foldl_countMatch _ counts h)

theorem CountsWF_subnetUserCounts (userFirewalls : List UserFirewall)
    (addresses : FirewallAddresses) : CountsWF (subnetUserCounts userFirewalls addresses) := by
  unfold subnetUserCounts
  rw [foldl_sessions]
  exact CountsWF_foldl_countSession _ _ _ ⟨by simp, by simp⟩

/-! ### Emission of the gauges -/

theorem foldl_append_singleton {α β : Type} (g : α → β) (l : List α) (init : List β) :
    l.foldl (fun acc x => acc ++ [g x]) init = init ++ l.map g := by
  induction l generalizing init with
  | nil => simp
  | cons x rest ih => simp [ih]

theorem foldl_append_flatMap {α β : Type} (f : α → List β) (l : List α) (init : List β) :
    l.foldl (fun acc x => acc ++ f x) init = init ++ l.flatMap f := by
  induction l generalizing init with
  | nil => simp
  | cons x rest ih => simp [ih]

theorem emitCounts_eq (counts : Counts) :
    emitCounts counts =
      counts.flatMap (fun e => e.2.map (fun sub => userCountGauge e.1 sub.1 sub.2)) := by
  unfold emitCounts
  have hinner : ∀ (e : String × List (String × Nat)) (metrics : List Metric),
      e.2.foldl (fun metrics sub =>
        metrics ++ [{ fqName := "fortigate_user_count_per_subnet",
                      help := "Number of active users per subnet",
                      labelNames := ["subnet_name", "subnet", "vdom"],
                      value := (sub.2 : Int),
                      labelValues := [sub.1, sub.1, e.1] }]) metrics =
        metrics ++ e.2.map (fun sub => userCountGauge e.1 sub.1 sub.2) := by
    intro e metrics
    exact foldl_append_singleton (fun sub => userCountGauge e.1 sub.1 sub.2) e.2 metrics
  simp only [hinner]
  rw [foldl_append_flatMap]
  simp

theorem emitCounts_perm (counts visited : Counts) (h : IterationOrder counts visited) :
    List.Perm (emitCounts visited) (emitCounts counts) := by
  obtain ⟨d, hp, hf⟩ := h
  rw [emitCounts_eq, emitCounts_eq]
  refine List.Perm.trans ?_ (List.Perm.flatMap_right _ hp).symm
  clear hp
  induction hf with
  | nil => exact List.Perm.refl _
  | @cons a b l1 l2 hab _ ih =>
    simp only [List.flatMap_cons]
    refine List.Perm.append ?_ ih
    rw [← hab.1]
    exact (hab.2.map _).symm

theorem mapGet_forall₂ (d visited : Counts) (v : String)
    (hf : List.Forall₂ (fun e e' => e.1 = e'.1 ∧ List.Perm e.2 e'.2) d visited) :
    (mapGet d v = none ∧ mapGet visited v = none) ∨
      ∃ i i', mapGet d v = some i ∧ mapGet visited v = some i' ∧ List.Perm i i' := by
  induction hf with
  | nil => left; exact ⟨rfl, rfl⟩
  | @cons a b l1 l2 hab _ ih =>
    obtain ⟨ka, ia⟩ := a
    obtain ⟨kb, ib⟩ := b
    simp only at hab
    obtain ⟨hk, hp⟩ := hab
    subst hk
    by_cases h0 : ka = v
    · right
      exact ⟨ia, ib, by simp [mapGet, h0], by simp [mapGet, h0], hp⟩
    · simpa [mapGet, h0] using ih

theorem getCount_iterationOrder (counts visited : Counts) (hwf : CountsWF counts)
    (h : IterationOrder counts visited) (v n : String) :
    getCount visited v n = getCount counts v n := by
  obtain ⟨d, hp, hf⟩ := h
  have h1 : mapGet counts v = mapGet d v := mapGet_perm counts d v hwf.1 hp
  unfold getCount
  rw [h1]
  rcases mapGet_forall₂ d visited v hf with ⟨hd, hv⟩ | ⟨i, i', hd, hv, hperm⟩
  · rw [hd, hv]
  · rw [hd, hv]
    have hmem : (v, i) ∈ counts := hp.mem_iff.2 (mem_of_mapGet d v i hd)
    have hnd := (hwf.2 _ hmem).1
    simp only
    rw [mapGet_perm i i' n hnd hperm]

/-- C14: two runs of the aggregation over the same address and session
collections compute the same counter map, whatever the order in which each run
lays out and visits it: every counter reads the same in both runs, and the
gauges emitted by the two runs are the same collection up to order. -/
theorem aggregation_idempotent (userFirewalls : List UserFirewall)
    (addresses : FirewallAddresses) (first second : Counts)
    (h1 : IterationOrder (subnetUserCounts userFirewalls addresses) first)
    (h2 : IterationOrder (subnetUserCounts userFirewalls addresses) second) :
    (∀ vdom name, getCount first vdom name = getCount second vdom name) ∧
      List.Perm (emitCounts first) (emitCounts second) := by
  have hwf := CountsWF_subnetUserCounts userFirewalls addresses
  constructor
  · intro vdom name
    rw [getCount_iterationOrder _ _ hwf h1, getCount_iterationOrder _ _ hwf h2]
  · exact (emitCounts_perm _ _ h1).trans (emitCounts_perm _ _ h2).symm

/-- Witness of C14: for one session at 10.0.0.5 and the two /24 objects of
`tieAddresses`, a run visiting the VDOM `root` first and a run visiting the
VDOM `guest` first emit the same two gauges. -/
theorem aggregation_idempotent_witness :
    List.Perm
      (emitCounts [("root", [("lan", 1)]), ("guest", [("lan2", 1)])])
      (emitCounts [("guest", [("lan2", 1)]), ("root", [("lan", 1)])]) :=
  have hc : subnetUserCounts scenarioSessions tieAddresses =
      [("root", [("lan", 1)]), ("guest", [("lan2", 1)])] := by decide
  (aggregation_idempotent scenarioSessions tieAddresses
    [("root", [("lan", 1)]), ("guest", [("lan2", 1)])]
    [("guest", [("lan2", 1)]), ("root", [("lan", 1)])]
    ⟨_, List.Perm.refl _, by
      rw [hc]
      exact List.Forall₂.cons ⟨rfl, List.Perm.refl _⟩
        (List.Forall₂.cons ⟨rfl, List.Perm.refl _⟩ List.Forall₂.nil)⟩
    ⟨[("guest", [("lan2", 1)]), ("root", [("lan", 1)])], by
      rw [hc]
      exact List.Perm.swap _ _ _, by
      exact List.Forall₂.cons ⟨rfl, List.Perm.refl _⟩
        (List.Forall₂.cons ⟨rfl, List.Perm.refl _⟩ List.Forall₂.nil)⟩).2

/-! ### Containment and network bits -/

set_option maxRecDepth 100000 in
theorem bitsValue_byteBits : ∀ v < 256, bitsValue (byteBits v) = v := by
  decide

theorem byteBits_injective (v w : Nat) (hv : v < 256) (hw : w < 256)
    (h : byteBits v = byteBits w) : v = w := by
  rw [← bitsValue_byteBits v hv, ← bitsValue_byteBits w hw, h]

theorem maskBits_cons (v : Nat) (rest : List Nat) :
    maskBits (v :: rest) = byteBits v ++ maskBits rest := by
  simp [maskBits]

theorem maskBits_injective (l1 l2 : List Nat) (hl : l1.length = l2.length)
    (h1 : ∀ b ∈ l1, b < 256) (h2 : ∀ b ∈ l2, b < 256) (h : maskBits l1 = maskBits l2) :
    l1 = l2 := by
  induction l1 generalizing l2 with
  | nil =>
    cases l2 with
    | nil => rfl
    | cons _ _ => simp at hl
  | cons v r1 ih =>
    cases l2 with
    | nil => simp at hl
    | cons w r2 =>
      rw [maskBits_cons, maskBits_cons] at h
      obtain ⟨hb, hr⟩ := List.append_inj h (by simp [byteBits_length])
      have hvw := byteBits_injective v w (h1 v (by simp)) (h2 w (by simp)) hb
      have hrr := ih r2 (by simpa using hl) (fun b hb' => h1 b (by simp [hb']))
        (fun b hb' => h2 b (by simp [hb'])) hr
      rw [hvw, hrr]

theorem length_eq_four {α : Type} (l : List α) (h : l.length = 4) :
    ∃ a b c d, l = [a, b, c, d] := by
  match l, h with
  | [a, b, c, d], _ => exact ⟨a, b, c, d, rfl⟩

theorem zipWith_and_lt (l m : List Nat) (hm : ∀ b ∈ m, b < 256) :
    ∀ b ∈ List.zipWith (fun x y => x &&& y) l m, b < 256 := by
  induction l generalizing m with
  | nil => simp
  | cons x rest ih =>
    cases m with
    | nil => simp
    | cons y rm =>
      intro b hb
      simp only [List.zipWith_cons_cons, List.mem_cons] at hb
      rcases hb with hb | hb
      · rw [hb]
        exact lt_of_le_of_lt Nat.and_le_right (hm y (by simp))
      · exact ih rm (fun b' hb' => hm b' (by simp [hb'])) b hb

theorem To4_of_length_four (l : List Nat) (h : l.length = 4) : To4 l = l := by
  simp [To4, h]

theorem To4_length (x : List Nat) : (To4 x).length = 4 ∨ To4 x = [] := by
  unfold To4
  split
  · left; assumption
  · split
    · rename_i h
      left
      simp [h.1]
    · right; rfl

theorem Contains_v4 (fa mk x : List Nat) (hfa : fa.length = 4) (hmk : mk.length = 4)
    (hx : (To4 x).length = 4) :
    ({ IP := List.zipWith (fun a b => a &&& b) fa mk, Mask := mk } : IPNet).Contains x = true ↔
      List.zipWith (fun a b => a &&& b) (To4 x) mk =
        List.zipWith (fun a b => a &&& b) fa mk := by
  obtain ⟨a0, a1, a2, a3, rfl⟩ := length_eq_four fa hfa
  obtain ⟨m0, m1, m2, m3, rfl⟩ := length_eq_four mk hmk
  obtain ⟨x0, x1, x2, x3, hx4⟩ := length_eq_four (To4 x) hx
  have hne : To4 x ≠ [] := by rw [hx4]; simp
  unfold IPNet.Contains networkNumberAndMask
  simp only [List.zipWith_cons_cons, List.zipWith_nil_right]
  rw [To4_of_length_four [a0 &&& m0, a1 &&& m1, a2 &&& m2, a3 &&& m3] rfl]
  simp [hne, hx4, List.range_succ, Nat.land_assoc]
  constructor
  · rintro ⟨h0, h1, h2, h3⟩
    exact ⟨h0.symm, h1.symm, h2.symm, h3.symm⟩
  · rintro ⟨h0, h1, h2, h3⟩
    exact ⟨h0.symm, h1.symm, h2.symm, h3.symm⟩

theorem Contains_iff_bits (fa x : List Nat) (p : Nat) (hfa : fa.length = 4) (hp : p ≤ 32)
    (hx : (To4 x).length = 4) :
    ({ IP := List.zipWith (fun a b => a &&& b) fa (CIDRMask p 32),
       Mask := CIDRMask p 32 } : IPNet).Contains x = true ↔
      (maskBits (To4 x)).take p = (maskBits fa).take p := by
  have hmk : (CIDRMask p 32).length = 4 := CIDRMask_length p 32 (Or.inl rfl) hp
  have hlt := (CIDRMask_facts p hp).2.2
  rw [Contains_v4 fa _ x hfa hmk hx]
  constructor
  · intro h
    have hb := congrArg maskBits h
    rw [network_bits _ p hx hp, network_bits fa p hfa hp] at hb
    exact List.append_cancel_right hb
  · intro h
    apply maskBits_injective
    · simp [hx, hfa, hmk]
    · exact zipWith_and_lt _ _ hlt
    · exact zipWith_and_lt _ _ hlt
    · rw [network_bits _ p hx hp, network_bits fa p hfa hp, h]

theorem objectNet_pair (o : FirewallAddressResult) (a mask : String) (p : Nat)
    (ho : o.Subnet = a ++ " " ++ mask)
    (ha : parsesAsIPv4 a = true) (hm : parsesAsIPv4 mask = true) (hp : p ≤ 32)
    (hbits : maskBits (To4 (ParseIP mask)) = prefixBits p) :
    objectNet o = some
      { IP := List.zipWith (fun x y => x &&& y) (To4 (ParseIP a)) (CIDRMask p 32),
        Mask := CIDRMask p 32 } := by
  unfold objectNet
  rw [ho, stringsSplit_pair a mask (parsesAsIPv4_chars a ha).2 (parsesAsIPv4_chars mask hm).2]
  simp only
  rw [ipNetToCIDR_of_ipv4 a mask ha hm, hbits, (prefixBits_facts p).1, (prefixBits_facts p).2,
    if_pos rfl]
  simp only
  rw [ParseCIDR_ipv4 a p ha hp]
  rfl

theorem containsIP_pair (o : FirewallAddressResult) (a mask : String) (p : Nat) (x : List Nat)
    (ho : o.Subnet = a ++ " " ++ mask)
    (ha : parsesAsIPv4 a = true) (hm : parsesAsIPv4 mask = true) (hp : p ≤ 32)
    (hbits : maskBits (To4 (ParseIP mask)) = prefixBits p) (hx : (To4 x).length = 4) :
    containsIP x o = true ↔
      (maskBits (To4 x)).take p = (maskBits (To4 (ParseIP a))).take p := by
  obtain ⟨fa, hl, _, _, h4, _⟩ := ParseAddr_ipv4 a ha
  unfold containsIP
  rw [objectNet_pair o a mask p ho ha hm hp hbits]
  simp only
  rw [h4]
  exact Contains_iff_bits fa x p hl hp hx

theorem containsIP_pair_not_v4 (o : FirewallAddressResult) (a mask : String) (p : Nat)
    (x : List Nat) (ho : o.Subnet = a ++ " " ++ mask)
    (ha : parsesAsIPv4 a = true) (hm : parsesAsIPv4 mask = true) (hp : p ≤ 32)
    (hbits : maskBits (To4 (ParseIP mask)) = prefixBits p) (hx : To4 x = []) :
    containsIP x o = false := by
  obtain ⟨fa, hl, _, _, h4, _⟩ := ParseAddr_ipv4 a ha
  have hmk : (CIDRMask p 32).length = 4 := CIDRMask_length p 32 (Or.inl rfl) hp
  obtain ⟨a0, a1, a2, a3, hfa⟩ := length_eq_four fa hl
  obtain ⟨m0, m1, m2, m3, hmm⟩ := length_eq_four _ hmk
  have hxl : x.length ≠ 4 := by
    intro h
    rw [To4_of_length_four x h] at hx
    rw [hx] at h
    simp at h
  unfold containsIP
  rw [objectNet_pair o a mask p ho ha hm hp hbits]
  simp only
  rw [h4, hfa, hmm]
  unfold IPNet.Contains networkNumberAndMask
  simp only [List.zipWith_cons_cons, List.zipWith_nil_right]
  rw [To4_of_length_four [a0 &&& m0, a1 &&& m1, a2 &&& m2, a3 &&& m3] rfl]
  simp [hx, hxl]

theorem prefixLen_pair (o : FirewallAddressResult) (a mask : String) (p : Nat)
    (ho : o.Subnet = a ++ " " ++ mask)
    (ha : parsesAsIPv4 a = true) (hm : parsesAsIPv4 mask = true) (hp : p ≤ 32)
    (hbits : maskBits (To4 (ParseIP mask)) = prefixBits p) : prefixLen o = p := by
  unfold prefixLen
  rw [objectNet_pair o a mask p ho ha hm hp hbits]
  exact (CIDRMask_facts p hp).2.1

theorem entries_mapObjects (g : FirewallAddressResult → FirewallAddressResult)
    (addresses : FirewallAddresses) :
    entries (mapObjects g addresses) = (entries addresses).map (mapMatch g) := by
  induction addresses with
  | nil => rfl
  | cons d rest ih =>
    unfold mapObjects at ih ⊢
    simp only [entries, List.map_cons, List.flatMap_cons, List.map_append, List.map_map] at ih ⊢
    rw [ih]
    rfl

theorem maxPrefix_map (x : List Nat) (g : FirewallAddressResult → FirewallAddressResult)
    (hg : ∀ o, containsIP x (g o) = containsIP x o ∧ prefixLen (g o) = prefixLen o)
    (es : List SubnetMatch) : maxPrefix x (es.map (mapMatch g)) = maxPrefix x es := by
  unfold maxPrefix
  rw [List.foldl_map]
  simp only [mapMatch, (hg _).1, (hg _).2]

theorem findLongestPrefixMatch_mapObjects (x : List Nat)
    (g : FirewallAddressResult → FirewallAddressResult)
    (hg : ∀ o, containsIP x (g o) = containsIP x o ∧ prefixLen (g o) = prefixLen o)
    (addresses : FirewallAddresses) :
    findLongestPrefixMatch x (mapObjects g addresses) =
      (findLongestPrefixMatch x addresses).map (mapMatch g) := by
  rw [findLongestPrefixMatch_eq, findLongestPrefixMatch_eq, entries_mapObjects,
    maxPrefix_map x g hg, List.filter_map]
  congr 1
  apply List.filter_congr
  intro m _
  simp only [Function.comp, mapMatch, (hg _).1, (hg _).2]

theorem foldl_countMatch_map (g : FirewallAddressResult → FirewallAddressResult)
    (hg : ∀ o, (g o).Name = o.Name) (ms : List SubnetMatch) (counts : Counts) :
    (ms.map (mapMatch g)).foldl countMatch counts = ms.foldl countMatch counts := by
  rw [List.foldl_map]
  congr 1
  funext c m
  simp only [countMatch, mapMatch, hg]

theorem subnetUserCounts_mapObjects (g : FirewallAddressResult → FirewallAddressResult)
    (hg : ∀ x o, containsIP x (g o) = containsIP x o ∧ prefixLen (g o) = prefixLen o)
    (hn : ∀ o, (g o).Name = o.Name) (userFirewalls : List UserFirewall)
    (addresses : FirewallAddresses) :
    subnetUserCounts userFirewalls (mapObjects g addresses) =
      subnetUserCounts userFirewalls addresses := by
  unfold subnetUserCounts
  rw [foldl_sessions, foldl_sessions]
  congr 1
  funext c r
  simp only [countSession]
  rw [findLongestPrefixMatch_mapObjects _ g (hg _), foldl_countMatch_map g hn]

theorem replaceAddress_facts (a a' mask : String) (p : Nat)
    (ha : parsesAsIPv4 a = true) (ha' : parsesAsIPv4 a' = true) (hm : parsesAsIPv4 mask = true)
    (hp : p ≤ 32) (hbits : maskBits (To4 (ParseIP mask)) = prefixBits p)
    (hsame : (maskBits (To4 (ParseIP a'))).take p = (maskBits (To4 (ParseIP a))).take p)
    (x : List Nat) (o : FirewallAddressResult) :
    containsIP x (replaceAddress a a' mask o) = containsIP x o ∧
      prefixLen (replaceAddress a a' mask o) = prefixLen o := by
  unfold replaceAddress
  by_cases ho : o.Subnet = a ++ " " ++ mask
  · rw [if_pos ho]
    have ho' : ({ o with Subnet := a' ++ " " ++ mask } : FirewallAddressResult).Subnet =
        a' ++ " " ++ mask := rfl
    constructor
    · rcases To4_length x with hx | hx
      · rw [Bool.eq_iff_iff, containsIP_pair _ a' mask p x ho' ha' hm hp hbits hx,
          containsIP_pair o a mask p x ho ha hm hp hbits hx, hsame]
      · rw [containsIP_pair_not_v4 _ a' mask p x ho' ha' hm hp hbits hx,
          containsIP_pair_not_v4 o a mask p x ho ha hm hp hbits hx]
    · rw [prefixLen_pair _ a' mask p ho' ha' hm hp hbits,
        prefixLen_pair o a mask p ho ha hm hp hbits]
  · rw [if_neg ho]
    exact ⟨rfl, rfl⟩

theorem replaceAddress_name (a a' mask : String) (o : FirewallAddressResult) :
    (replaceAddress a a' mask o).Name = o.Name ∧
      (replaceAddress a a' mask o).Type_ = o.Type_ := by
  unfold replaceAddress
  split <;> exact ⟨rfl, rfl⟩

/-- C15: for an object whose `Subnet` is a valid IPv4 dotted quad `a`, a space
and a contiguous dotted-quad mask of prefix length `p`, and for every IPv4
address `x`, the object contains `x` exactly when the first `p` bits of `x`
are those of `a`; hence replacing `a` by an address `a'` with the same first
`p` bits leaves the matching unchanged for every `x`: the same entries are
returned in the same order (each carrying the `Subnet` text it has in the
collection), with the same VDOM, name and type, and the aggregate is the
same. -/
theorem containment_network_bits (a a' mask : String) (p : Nat)
    (ha : parsesAsIPv4 a = true) (ha' : parsesAsIPv4 a' = true) (hm : parsesAsIPv4 mask = true)
    (hp : p ≤ 32) (hbits : maskBits (To4 (ParseIP mask)) = prefixBits p) :
    (∀ (o : FirewallAddressResult) (x : List Nat), o.Subnet = a ++ " " ++ mask →
      (To4 x).length = 4 →
        (containsIP x o = true ↔
          (maskBits (To4 x)).take p = (maskBits (To4 (ParseIP a))).take p)) ∧
    ((maskBits (To4 (ParseIP a'))).take p = (maskBits (To4 (ParseIP a))).take p →
      ∀ (x : List Nat) (addresses : FirewallAddresses) (userFirewalls : List UserFirewall),
        findLongestPrefixMatch x (mapObjects (replaceAddress a a' mask) addresses) =
            (findLongestPrefixMatch x addresses).map (mapMatch (replaceAddress a a' mask)) ∧
          (findLongestPrefixMatch x (mapObjects (replaceAddress a a' mask) addresses)).map
              (fun m => (m.VDOM, m.Address.Name, m.Address.Type_)) =
            (findLongestPrefixMatch x addresses).map
              (fun m => (m.VDOM, m.Address.Name, m.Address.Type_)) ∧
          subnetUserCounts userFirewalls (mapObjects (replaceAddress a a' mask) addresses) =
            subnetUserCounts userFirewalls addresses) := by
  refine ⟨fun o x ho hx => containsIP_pair o a mask p x ho ha hm hp hbits hx, ?_⟩
  intro hsame x addresses userFirewalls
  have hg := replaceAddress_facts a a' mask p ha ha' hm hp hbits hsame
  have h1 := findLongestPrefixMatch_mapObjects x (replaceAddress a a' mask) (hg x) addresses
  refine ⟨h1, ?_, ?_⟩
  · rw [h1, List.map_map]
    apply List.map_congr_left
    intro m _
    simp [mapMatch, (replaceAddress_name a a' mask m.Address).1,
      (replaceAddress_name a a' mask m.Address).2]
  · exact subnetUserCounts_mapObjects _ hg
      (fun o => (replaceAddress_name a a' mask o).1) userFirewalls addresses

/-- Witness of C15: with `10.0.0.77 255.255.255.0` in place of
`10.0.0.0 255.255.255.0` the session at 10.0.0.5 is still counted for `net-a`
alone. -/
theorem containment_network_bits_witness :
    subnetUserCounts scenarioSessions
        (mapObjects (replaceAddress "10.0.0.0" "10.0.0.77" "255.255.255.0") scenarioAddresses) =
      subnetUserCounts scenarioSessions scenarioAddresses :=
  ((containment_network_bits "10.0.0.0" "10.0.0.77" "255.255.255.0" 24 (by decide) (by decide)
    (by decide) (by decide) (by decide)).2 (by decide) [] scenarioAddresses
    scenarioSessions).2.2

/-! ### Presence of keys -/

theorem sum_pos_iff (l : List Nat) : 0 < l.sum ↔ ∃ x ∈ l, 0 < x := by
  induction l with
  | nil => simp
  | cons a rest ih =>
    simp only [List.sum_cons, List.mem_cons, exists_eq_or_imp]
    constructor
    · intro h
      by_cases ha : 0 < a
      · exact Or.inl ha
      · exact Or.inr (ih.1 (by omega))
    · rintro (h | h)
      · omega
      · have := ih.2 h
        omega

theorem getCount_pos_iff (userFirewalls : List UserFirewall) (addresses : FirewallAddresses)
    (vdom name : String) :
    0 < getCount (subnetUserCounts userFirewalls addresses) vdom name ↔
      ∃ r ∈ sessions userFirewalls,
        ∃ m ∈ findLongestPrefixMatch (ParseIP r.IPAddr) addresses,
          m.VDOM = vdom ∧ m.Address.Name = name := by
  rw [getCount_subnetUserCounts, sum_pos_iff]
  constructor
  · rintro ⟨n, hn, hpos⟩
    obtain ⟨r, hr, rfl⟩ := List.mem_map.1 hn
    obtain ⟨m, hm, hmp⟩ := List.countP_pos_iff.1 hpos
    exact ⟨r, hr, m, hm, by simpa using hmp⟩
  · rintro ⟨r, hr, m, hm, hv, hname⟩
    exact ⟨_, List.mem_map.2 ⟨r, hr, rfl⟩, List.countP_pos_iff.2 ⟨m, hm, by simp [hv, hname]⟩⟩

/-- C16: in the counter map built by the aggregation, a key `(vdom, name)` is
present exactly when some session produced a match of that VDOM and name, every
counter present is at least 1, no inner map is empty, and processing one more
session never decreases a counter. -/
theorem counts_at_least_one (userFirewalls : List UserFirewall)
    (addresses : FirewallAddresses) :
    (∀ vdom name,
      (∃ inner c, mapGet (subnetUserCounts userFirewalls addresses) vdom = some inner ∧
          mapGet inner name = some c) ↔
        ∃ r ∈ sessions userFirewalls,
          ∃ m ∈ findLongestPrefixMatch (ParseIP r.IPAddr) addresses,
            m.VDOM = vdom ∧ m.Address.Name = name) ∧
    (∀ vdom name inner c,
      mapGet (subnetUserCounts userFirewalls addresses) vdom = some inner →
        mapGet inner name = some c → 1 ≤ c) ∧
    (∀ e ∈ subnetUserCounts userFirewalls addresses, e.2 ≠ []) ∧
    (∀ (counts : Counts) (r : UserFirewallResult) (vdom name : String),
      getCount counts vdom name ≤ getCount (countSession addresses counts r) vdom name) := by
  have hwf := CountsWF_subnetUserCounts userFirewalls addresses
  have hge : ∀ vdom name inner c,
      mapGet (subnetUserCounts userFirewalls addresses) vdom = some inner →
        mapGet inner name = some c → 1 ≤ c := by
    intro vdom name inner c h1 h2
    exact (hwf.2 _ (mem_of_mapGet _ _ _ h1)).2.2 _ (mem_of_mapGet _ _ _ h2)
  refine ⟨?_, hge, fun e he => (hwf.2 e he).2.1, ?_⟩
  · intro vdom name
    rw [← getCount_pos_iff]
    constructor
    · rintro ⟨inner, c, h1, h2⟩
      have := hge vdom name inner c h1 h2
      simp only [getCount, h1, h2, Option.getD_some]
      omega
    · intro hpos
      unfold getCount at hpos
      cases h1 : mapGet (subnetUserCounts userFirewalls addresses) vdom with
      | none => simp [h1] at hpos
      | some inner =>
        cases h2 : mapGet inner name with
        | none => simp [h1, h2] at hpos
        | some c => exact ⟨inner, c, rfl, h2⟩
  · intro counts r vdom name
    rw [countSession, getCount_foldl_countMatch]
    omega

/-! ### Sessions are read through their IP address only -/

theorem subnetUserCounts_ipaddr (userFirewalls : List UserFirewall)
    (addresses : FirewallAddresses) :
    subnetUserCounts userFirewalls addresses =
      ((sessions userFirewalls).map (fun r => r.IPAddr)).foldl
        (fun counts ip => (findLongestPrefixMatch (ParseIP ip) addresses).foldl countMatch counts)
        [] := by
  unfold subnetUserCounts
  rw [foldl_sessions, List.foldl_map]
  rfl

/-- C17: two session lists with the same sequence of `IPAddr` values give the
same aggregate over a given address collection, whatever the VDOM of the
enclosing records and the other fields of the sessions. -/
theorem aggregate_depends_on_ipaddr (first second : List UserFirewall)
    (addresses : FirewallAddresses)
    (h : (sessions first).map (fun r => r.IPAddr) = (sessions second).map (fun r => r.IPAddr)) :
    subnetUserCounts first addresses = subnetUserCounts second addresses := by
  rw [subnetUserCounts_ipaddr, subnetUserCounts_ipaddr, h]

/-- Witness of C17: the session at 10.0.0.5 recorded in VDOM `guest` is counted
for the object `net-a` of VDOM `root`, as when it is recorded in `root`. -/
theorem aggregate_depends_on_ipaddr_witness :
    subnetUserCounts [userFirewallOf "guest" [sessionOf "10.0.0.5"]] scenarioAddresses =
        subnetUserCounts scenarioSessions scenarioAddresses ∧
      subnetUserCounts [userFirewallOf "guest" [sessionOf "10.0.0.5"]] scenarioAddresses =
        [("root", [("net-a", 1)])] :=
  ⟨aggregate_depends_on_ipaddr [userFirewallOf "guest" [sessionOf "10.0.0.5"]] scenarioSessions
    scenarioAddresses (by decide), by decide⟩

/-! ### The gauges of `probeFirewallAddress` -/

theorem labels_nodup (counts : Counts) (hk : (counts.map Prod.fst).Nodup)
    (hi : ∀ e ∈ counts, (e.2.map Prod.fst).Nodup) :
    (counts.flatMap (fun e => e.2.map (fun sub => [sub.1, sub.1, e.1]))).Nodup := by
  induction counts with
  | nil => simp
  | cons e rest ih =>
    simp only [List.map_cons, List.nodup_cons] at hk
    rw [List.flatMap_cons, List.nodup_append]
    refine ⟨?_, ih hk.2 (fun e' he' => hi e' (by simp [he'])), ?_⟩
    · have hinj : Function.Injective (fun n : String => [n, n, e.1]) := by
        intro n1 n2 h
        simpa using h
      have := (hi e (by simp)).map hinj
      rwa [List.map_map] at this
    · intro lbl h1 h2
      obtain ⟨s, _, hs⟩ := List.mem_map.1 h1
      obtain ⟨e', he', h3⟩ := List.mem_flatMap.1 h2
      obtain ⟨s', _, hs'⟩ := List.mem_map.1 h3
      rw [← hs] at hs'
      simp only [List.cons.injEq, and_true] at hs'
      apply hk.1
      rw [← hs'.2.2]
      exact List.mem_map.2 ⟨e', he', rfl⟩

theorem mem_emitCounts (counts : Counts) (hk : (counts.map Prod.fst).Nodup)
    (hi : ∀ e ∈ counts, (e.2.map Prod.fst).Nodup) (m : Metric) :
    m ∈ emitCounts counts ↔
      ∃ vdom name inner count, mapGet counts vdom = some inner ∧
        mapGet inner name = some count ∧ m = userCountGauge vdom name count := by
  rw [emitCounts_eq, List.mem_flatMap]
  constructor
  · rintro ⟨e, he, hm⟩
    obtain ⟨s, hs, rfl⟩ := List.mem_map.1 hm
    exact ⟨e.1, s.1, e.2, s.2, mapGet_of_mem counts e.1 e.2 hk he,
      mapGet_of_mem e.2 s.1 s.2 (hi e he) hs, rfl⟩
  · rintro ⟨vdom, name, inner, count, h1, h2, rfl⟩
    exact ⟨(vdom, inner), mem_of_mapGet _ _ _ h1,
      List.mem_map.2 ⟨(name, count), mem_of_mapGet _ _ _ h2, rfl⟩⟩

/-- C18: on success `probeFirewallAddress` returns `true` with one gauge
`fortigate_user_count_per_subnet` per key `(vdom, name)` of the counter map:
its value is the counter and its label values for `(subnet_name, subnet, vdom)`
are `(name, name, vdom)`; no two gauges carry the same label values, and the
gauges emitted in any iteration order of the map are the same collection. -/
theorem probeFirewallAddress_gauges (c : FortiHTTP) (fa : FirewallAddresses)
    (uf : List UserFirewall) (hfa : c.firewallAddress = Except.ok fa)
    (huf : c.userFirewall = Except.ok uf) :
    (probeFirewallAddress c).1 =
        ((subnetUserCounts uf fa).flatMap
          (fun e => e.2.map (fun sub => userCountGauge e.1 sub.1 sub.2)), true) ∧
      (∀ m : Metric, m ∈ (probeFirewallAddress c).1.1 ↔
        ∃ vdom name inner count, mapGet (subnetUserCounts uf fa) vdom = some inner ∧
          mapGet inner name = some count ∧
          m = { fqName := "fortigate_user_count_per_subnet",
                help := "Number of active users per subnet",
                labelNames := ["subnet_name", "subnet", "vdom"],
                value := (count : Int),
                labelValues := [name, name, vdom] }) ∧
      ((probeFirewallAddress c).1.1.map (fun m => m.labelValues)).Nodup ∧
      (∀ visited, IterationOrder (subnetUserCounts uf fa) visited →
        List.Perm (emitCounts visited) (probeFirewallAddress c).1.1) := by
  have hwf := CountsWF_subnetUserCounts uf fa
  have hi : ∀ e ∈ subnetUserCounts uf fa, (e.2.map Prod.fst).Nodup := fun e he => (hwf.2 e he).1
  have hp : (probeFirewallAddress c).1 = (emitCounts (subnetUserCounts uf fa), true) := by
    simp [probeFirewallAddress, fetchUserFirewallData, hfa, huf]
  rw [hp]
  refine ⟨by rw [emitCounts_eq], ?_, ?_, ?_⟩
  · intro m
    exact mem_emitCounts _ hwf.1 hi m
  · simp only
    rw [emitCounts_eq, List.map_flatMap]
    simp only [List.map_map]
    exact labels_nodup _ hwf.1 hi
  · intro visited hv
    exact emitCounts_perm _ _ hv

/-- Witness of C18: two /24 objects of VDOM `root` named `dup` and one session
at 10.0.0.5 give the single gauge `(dup, dup, root)` of value 2. -/
theorem probeFirewallAddress_gauges_witness :
    (probeFirewallAddress sharedNameClient).1 = ([userCountGauge "root" "dup" 2], true) :=
  have hc : subnetUserCounts scenarioSessions sharedNameAddresses = [("root", [("dup", 2)])] := by
    decide
  ((probeFirewallAddress_gauges sharedNameClient sharedNameAddresses scenarioSessions
    rfl rfl).1).trans (by rw [hc]; rfl)

/-! ### `processUserFirewallData` -/

theorem foldl_append_pair {α β : Type} (g h : α → β) (l : List α) (init : List β) :
    l.foldl (fun acc x => (acc ++ [g x]) ++ [h x]) init =
      init ++ l.flatMap (fun x => [g x, h x]) := by
  induction l generalizing init with
  | nil => simp
  | cons x rest ih =>
    rw [List.foldl_cons, ih, List.flatMap_cons]
    simp

theorem processUserFirewallData_eq (userFirewalls : List UserFirewall) :
    processUserFirewallData userFirewalls =
      (sessionPairs userFirewalls).flatMap (fun p => [durationGauge p.1 p.2, trafficGauge p.1 p.2])
    := by
  unfold processUserFirewallData sessionPairs
  have hinner : ∀ (fw : UserFirewall) (metrics : List Metric),
      fw.Results.foldl (fun metrics r =>
        (metrics ++ [{ fqName := "fortigate_user_firewall_duration_seconds",
                       help := "Duration of user firewall activity in seconds",
                       labelNames := ["vdom", "ipaddr", "method", "type"],
                       value := float64 r.DurationSecs,
                       labelValues := [fw.VDOM, r.IPAddr, r.Method, r.Type_] }]) ++
          [{ fqName := "fortigate_user_firewall_traffic_bytes",
             help := "Traffic volume in bytes for user firewall activity",
             labelNames := ["vdom", "ipaddr", "method", "type"],
             value := float64 r.TrafficVolBytes,
             labelValues := [fw.VDOM, r.IPAddr, r.Method, r.Type_] }]) metrics =
        metrics ++ fw.Results.flatMap
          (fun r => [durationGauge fw.VDOM r, trafficGauge fw.VDOM r]) := by
    intro fw metrics
    exact foldl_append_pair (durationGauge fw.VDOM) (trafficGauge fw.VDOM) fw.Results metrics
  simp only [hinner]
  rw [foldl_append_flatMap, List.nil_append, List.flatMap_assoc]
  simp only [List.flatMap_map]

theorem getElem?_flatMap_pair {α β : Type} (g h : α → β) (l : List α) (k : Nat) :
    (l.flatMap (fun x => [g x, h x]))[2 * k]? = (l[k]?).map g ∧
      (l.flatMap (fun x => [g x, h x]))[2 * k + 1]? = (l[k]?).map h := by
  induction l generalizing k with
  | nil => simp
  | cons a rest ih =>
    cases k with
    | zero => simp
    | succ k =>
      have e1 : 2 * (k + 1) = (2 * k + 1) + 1 := by omega
      have e2 : 2 * (k + 1) + 1 = ((2 * k + 1) + 1) + 1 := by omega
      rw [e1]
      simp only [List.flatMap_cons, List.cons_append, List.nil_append, List.getElem?_cons_succ]
      exact ih k

theorem sessionPairs_snd (userFirewalls : List UserFirewall) :
    (sessionPairs userFirewalls).map Prod.snd = sessions userFirewalls := by
  unfold sessionPairs sessions
  rw [List.map_flatMap]
  simp [List.map_map, Function.comp]

theorem roundToDouble_exact (a : Nat) (h : a ≤ 2 ^ 53) : roundToDouble a = a := by
  rcases Nat.lt_or_eq_of_le h with h1 | h1
  · unfold roundToDouble
    rw [if_pos h1]
  · rw [h1]
    decide

theorem float64_exact (v : Int) (hlo : -(2 ^ 53) ≤ v) (hhi : v ≤ 2 ^ 53) : float64 v = v := by
  have ha : v.natAbs ≤ 2 ^ 53 := by omega
  unfold float64
  rw [roundToDouble_exact _ ha]
  split <;> omega

/-- C19, counterexample: for a session with `TrafficVolBytes = 2^53 + 1` and
`DurationSecs = 2^53 + 3` the traffic gauge has the value `2^53` and the
duration gauge the value `2^53 + 4`: neither is the field itself. -/
theorem processUserFirewallData_value_counterexample :
    largeSession.DurationSecs = 9007199254740995 ∧
      ((processUserFirewallData [userFirewallOf "root" [largeSession]])[0]?).map
        (fun m => m.value) = some 9007199254740996 ∧
      largeSession.TrafficVolBytes = 9007199254740993 ∧
      ((processUserFirewallData [userFirewallOf "root" [largeSession]])[1]?).map
        (fun m => m.value) = some 9007199254740992 := by
  decide

/-- C19, amended: `processUserFirewallData` emits, for the `k`-th session result
in input order, the duration gauge at position `2k` and the traffic gauge at
position `2k + 1`, both labelled (VDOM of the enclosing record, `IPAddr`,
`Method`, `Type`) and valued `float64(DurationSecs)` and
`float64(TrafficVolBytes)`, which are the fields themselves when their absolute
value is at most `2^53`; the output has twice as many metrics as there are
session results, so no session is dropped, whatever its `IPAddr`. -/
theorem processUserFirewallData_spec (userFirewalls : List UserFirewall) :
    (processUserFirewallData userFirewalls).length = 2 * (sessions userFirewalls).length ∧
      (sessionPairs userFirewalls).map Prod.snd = sessions userFirewalls ∧
      (∀ (k : Nat) (vdom : String) (r : UserFirewallResult),
        (sessionPairs userFirewalls)[k]? = some (vdom, r) →
          (processUserFirewallData userFirewalls)[2 * k]? =
              some { fqName := "fortigate_user_firewall_duration_seconds",
                     help := "Duration of user firewall activity in seconds",
                     labelNames := ["vdom", "ipaddr", "method", "type"],
                     value := float64 r.DurationSecs,
                     labelValues := [vdom, r.IPAddr, r.Method, r.Type_] } ∧
            (processUserFirewallData userFirewalls)[2 * k + 1]? =
              some { fqName := "fortigate_user_firewall_traffic_bytes",
                     help := "Traffic volume in bytes for user firewall activity",
                     labelNames := ["vdom", "ipaddr", "method", "type"],
                     value := float64 r.TrafficVolBytes,
                     labelValues := [vdom, r.IPAddr, r.Method, r.Type_] }) ∧
      (∀ v : Int, -(2 ^ 53) ≤ v → v ≤ 2 ^ 53 → float64 v = v) := by
  refine ⟨?_, sessionPairs_snd userFirewalls, ?_, float64_exact⟩
  · rw [processUserFirewallData_eq, ← sessionPairs_snd, List.length_map]
    generalize sessionPairs userFirewalls = ps
    induction ps with
    | nil => rfl
    | cons p rest ih =>
      simp only [List.flatMap_cons, List.length_append, List.length_cons, List.length_nil, ih]
      omega
  · intro k vdom r hk
    rw [processUserFirewallData_eq]
    have := getElem?_flatMap_pair (fun p : String × UserFirewallResult => durationGauge p.1 p.2)
      (fun p => trafficGauge p.1 p.2) (sessionPairs userFirewalls) k
    rw [hk] at this
    exact this

end Probe
